import Mathlib

/-!
Formal model of the BrinChat streaming chat pipeline
(from `app/routers/chat.py`, `app/services/streaming_tts.py` and
`app.bak/services/claude_service.py`), with theorems about context
truncation, tool-result sanitization, the sentence buffer, the provider
stream adapter, cancellation, and the SSE streaming loop.

Modelling conventions:
* Python strings are Lean `String` or `List Char`; Python's re `\s` class
  is modelled on its ASCII range (all inputs considered here are ASCII).
* Dicts whose key sets are fixed become structures; JSON-like dicts become
  association lists in insertion order (Python 3.7+ dicts are ordered).
* A Python value that is only tested for truthiness and concatenated is
  modelled as a `String` with `""` playing the role of both `None` and
  the empty string (their truthiness and `+`-behaviour agree).
* Machine integers are `Nat`/`Int`; fallible code returns `Option`.
-/

namespace BrinChat

/-- A chat message as passed to the context-window helpers of
`app/routers/chat.py`: a `role` and textual `content` (dict-valued
content enters `estimate_tokens` via `json.dumps`, so it is modelled
here by its serialized string form). -/
structure Msg where
  role : String
  content : String
deriving DecidableEq, Repr

/-- `estimate_tokens` (chat.py): `len(text) // 4 + 1`. -/
def estimate_tokens (text : String) : Nat := text.length / 4 + 1

/-- The backward scan of `truncate_messages_for_context` (chat.py lines
319-324): walk indices from `len-1` down to `0`; a `tool` or `assistant`
message updates `critical_start` and the scan continues; the first
`user` message sets it and breaks; other roles leave it unchanged. -/
def criticalLoop (msgs : List Msg) : List Nat → Nat → Nat
  | [], cs => cs
  | i :: rest, cs =>
    let r := (msgs[i]?.map Msg.role).getD ""
    if r = "tool" ∨ r = "assistant" then criticalLoop msgs rest i
    else if r = "user" then i
    else criticalLoop msgs rest cs

/-- `critical_start` of `truncate_messages_for_context` (chat.py line
318 plus the backward scan): initialised to `len-1` when the final
message has role `user`, else `len`. -/
def critical_start (msgs : List Msg) : Nat :=
  let init := if msgs.getLast?.map Msg.role = some "user" then msgs.length - 1 else msgs.length
  criticalLoop msgs ((List.range msgs.length).reverse) init

/-- The synthetic notice message inserted by simple truncation. -/
def truncationNotice : Msg :=
  ⟨"system", "[Earlier conversation history truncated to fit context window]"⟩

/-- `truncate_messages_for_context` (chat.py lines 289-358).  The Python
default `reserve_tokens=1000` is passed explicitly by callers of this
model.  `available_tokens` is an `Int` because Python subtraction may go
negative. -/
def truncate_messages_for_context (messages : List Msg) (max_tokens reserve_tokens : Nat) :
    List Msg :=
  let available : Int := (max_tokens : Int) - (reserve_tokens : Int)
  if messages = [] then messages
  else
    let message_tokens := messages.map (fun m => estimate_tokens m.content)
    let total : Nat := message_tokens.sum
    if (total : Int) ≤ available then messages
    else
      let cs := critical_start messages
      let hasSystem := messages.head?.map Msg.role = some "system"
      let sysPart := if hasSystem then messages.take 1 else []
      let kept : Nat := if hasSystem then message_tokens.headD 0 else 0
      let critical : Nat := (message_tokens.drop cs).sum
      if (critical : Int) > available - (kept : Int) then
        sysPart ++ messages.drop cs
      else
        let notice := if cs > (if hasSystem then 1 else 0) then [truncationNotice] else []
        sysPart ++ notice ++ messages.drop cs

/-! ### Sentence buffer (`app/services/streaming_tts.py`, class `SentenceBuffer`)

Text is modelled as `List Char`.  Python's `\s` is modelled on its ASCII
range (all inputs considered here are ASCII). -/

/-- ASCII range of Python's regex class `\s` and of `str.strip()`. -/
def isPySpace (c : Char) : Bool :=
  c = ' ' || c = '\t' || c = '\n' || c = '\r' || c = '\x0b' || c = '\x0c'

/-- Python `str.lstrip()`. -/
def pyStripLeft (l : List Char) : List Char := l.dropWhile isPySpace

/-- Python `str.rstrip()`. -/
def pyStripRight (l : List Char) : List Char := (l.reverse.dropWhile isPySpace).reverse

/-- Python `str.strip()`. -/
def pyStrip (l : List Char) : List Char := pyStripRight (pyStripLeft l)

/-- Length of the leading whitespace run (the greedy `\s+`). -/
def spaceRun : List Char → Nat
  | [] => 0
  | c :: cs => if isPySpace c then spaceRun cs + 1 else 0

/-- `SENTENCE_END.search(buffer)` for the pattern `([.!?])(\s+)`: the
`end()` position of the first match — one past the punctuation plus the
greedy whitespace run — or `none` when there is no match. -/
def sentenceEndSearch : List Char → Option Nat
  | [] => none
  | c :: cs =>
    if (c = '.' || c = '!' || c = '?') &&
        (match cs with | [] => false | d :: _ => isPySpace d) then
      some (1 + spaceRun cs)
    else
      (sentenceEndSearch cs).map (· + 1)

/-- Python `str.count("```")`: non-overlapping left-to-right count. -/
def countFences : List Char → Nat
  | '`' :: '`' :: '`' :: rest => countFences rest + 1
  | _ :: rest => countFences rest
  | [] => 0

/-- Does the list start with three backticks? -/
def startsWithFence : List Char → Bool
  | '`' :: '`' :: '`' :: _ => true
  | _ => false

/-- Helper for `rfindFence`. -/
def rfindFenceAux : List Char → Nat → Option Nat → Option Nat
  | [], _, acc => acc
  | l :: rest, i, acc =>
    rfindFenceAux rest (i + 1) (if startsWithFence (l :: rest) then some i else acc)

/-- Python `str.rfind("```")`: the greatest start index of `\x60\x60\x60`,
`none` when absent (Python returns `-1`; callers here only use it when
the count is positive). -/
def rfindFence (l : List Char) : Option Nat := rfindFenceAux l 0 none

/-- Python `combined.rfind(" ", 0, bound)`: greatest `i < bound` with a
space at `i`, `none` when there is none (Python returns `-1`). -/
def rfindSpaceBefore (l : List Char) (bound : Nat) : Option Nat :=
  ((List.range (min bound l.length)).reverse).find? (fun i => l[i]? = some ' ')

/-- State of `SentenceBuffer`: `buffer`, `in_code_block` and the
`_pending_short` carry-over of sub-threshold fragments. -/
structure SentenceBuffer where
  buffer : List Char
  in_code_block : Bool
  pending_short : List Char
deriving DecidableEq, Repr

/-- `SentenceBuffer.MIN_SENTENCE_LEN`. -/
def MIN_SENTENCE_LEN : Nat := 20

/-- `SentenceBuffer.MAX_SENTENCE_LEN`. -/
def MAX_SENTENCE_LEN : Nat := 250

/-- Result of one iteration of the `while self.buffer` loop of
`_extract_sentences`: `halt` is `break`, `next` continues with an
optionally emitted sentence. -/
inductive StepRes
  | halt (st : SentenceBuffer)
  | next (st : SentenceBuffer) (emit : Option (List Char))
deriving DecidableEq, Repr

/-- One iteration of `_extract_sentences` (streaming_tts.py lines
224-276): the code-fence tracking, the sentence-boundary match, and the
max-length forced split.  When the fence branch matches neither of its
two cases it falls through to the sentence logic, exactly as in the
source. -/
def extractStep (st : SentenceBuffer) : StepRes :=
  let cfc := countFences st.buffer
  let fallThrough : StepRes :=
    if st.in_code_block then .halt st
    else
      match sentenceEndSearch st.buffer with
      | some endPos =>
        let sentence := st.pending_short ++ pyStrip (st.buffer.take endPos)
        let buf := st.buffer.drop endPos
        if MIN_SENTENCE_LEN ≤ sentence.length then
          .next { buffer := buf, in_code_block := st.in_code_block, pending_short := [] }
            (some sentence)
        else
          .next { buffer := buf, in_code_block := st.in_code_block,
                  pending_short := sentence ++ [' '] } none
      | none =>
        if MAX_SENTENCE_LEN < st.pending_short.length + st.buffer.length then
          let combined := st.pending_short ++ st.buffer
          let sp := match rfindSpaceBefore combined MAX_SENTENCE_LEN with
                    | some i => i
                    | none => MAX_SENTENCE_LEN
          let sentence := pyStrip (combined.take sp)
          let remainder := pyStripLeft (combined.drop sp)
          let st' : SentenceBuffer := ⟨remainder, st.in_code_block, []⟩
          if sentence = [] then .next st' none else .next st' (some sentence)
        else .halt st
  if cfc > 0 then
    let lastF := (rfindFence st.buffer).getD 0
    let beforeLast := countFences (st.buffer.take lastF)
    if beforeLast % 2 = 0 ∧ cfc % 2 = 1 then .halt { st with in_code_block := true }
    else if cfc % 2 = 0 then
      let afterClose := st.buffer.drop (lastF + 3)
      if pyStrip afterClose = [] then .halt { st with in_code_block := false }
      else
        .next { buffer := afterClose, in_code_block := false,
                pending_short := st.pending_short ++ st.buffer.take (lastF + 3) } none
    else fallThrough
  else fallThrough

/-- The `while self.buffer` loop of `_extract_sentences`, with an
explicit fuel parameter bounding the number of iterations (callers pass
a fuel that dominates the Python loop's iteration count, which strictly
decreases an appropriate measure). -/
def extractLoop : Nat → SentenceBuffer → List (List Char) → SentenceBuffer × List (List Char)
  | 0, st, acc => (st, acc)
  | fuel + 1, st, acc =>
    if st.buffer = [] then (st, acc)
    else
      match extractStep st with
      | .halt st' => (st', acc)
      | .next st' none => extractLoop fuel st' acc
      | .next st' (some s) => extractLoop fuel st' (acc ++ [s])

/-- `SentenceBuffer.add_token`: append the token to the buffer and
extract any complete sentences. -/
def SentenceBuffer.add_token (st : SentenceBuffer) (token : List Char) :
    SentenceBuffer × List (List Char) :=
  let st := { st with buffer := st.buffer ++ token }
  extractLoop (4 * (st.buffer.length + st.pending_short.length) + 8) st []

/-- `SentenceBuffer.flush`: return the stripped remainder (pending
fragment plus buffer), `none` when it is empty. -/
def SentenceBuffer.flush (st : SentenceBuffer) : SentenceBuffer × Option (List Char) :=
  let remaining := st.pending_short ++ st.buffer
  let text := pyStrip remaining
  ({ buffer := [], in_code_block := st.in_code_block, pending_short := [] },
   if text = [] then none else some text)

/-- A fresh `SentenceBuffer()`. -/
def SentenceBuffer.init : SentenceBuffer := ⟨[], false, []⟩

/-- Feed a list of tokens through `add_token`, concatenating the
returned sentences. -/
def feedTokens (st : SentenceBuffer) (toks : List (List Char)) :
    SentenceBuffer × List (List Char) :=
  toks.foldl (fun p t =>
    let r := SentenceBuffer.add_token p.1 t
    (r.1, p.2 ++ r.2)) (st, [])

/-- Feed a text one character at a time. -/
def feedChars (st : SentenceBuffer) (cs : List Char) : SentenceBuffer × List (List Char) :=
  feedTokens st (cs.map (fun c => [c]))

/-! ### Provider stream adapter (`app.bak/services/claude_service.py`,
`chat_stream`, lines 365-447)

The SSE transport and `json.loads` are external; a wire line is modelled
by its parse outcome.  The JSON parser applied to an accumulated
tool-call `arguments` string is an abstract parameter
`P : String → Option (List (String × String))` with `none` playing the
role of `json.JSONDecodeError`. -/

/-- One streamed tool-call fragment `delta.tool_calls[j]`:
`tc.get("index", 0)` plus the `function.name` / `function.arguments`
fields (`""` models a missing or empty — falsy — field). -/
structure ToolFrag where
  index : Nat
  name : String
  args : String
deriving DecidableEq, Repr

/-- A parsed `choices[0].delta`: optional content (`""` = missing or
empty) and the tool-call fragments. -/
structure Delta where
  content : String
  toolFrags : List ToolFrag
deriving DecidableEq, Repr

/-- One line of the upstream SSE body, by parse outcome:
`other` = empty or not a `data:` line (skipped); `doneSentinel` =
`data: [DONE]`; `badJson` = body failing `json.loads` (skipped);
`badChoices` = parseable body whose `choices` list is empty (the
`[0]` indexing raises and the error propagates); `chunk` = a parsed
delta plus the optional `finish_reason`. -/
inductive WireLine
  | other
  | doneSentinel
  | badJson
  | badChoices
  | chunk (delta : Delta) (finishReason : Option String)
deriving DecidableEq, Repr

/-- The `arguments` field of an accumulating tool call: the raw wire
string, or the structured object it is parsed into on the terminal
chunk (a JSON object abstracted as an association list). -/
inductive ArgsVal
  | raw (s : String)
  | parsed (d : List (String × String))
deriving DecidableEq, Repr

/-- One entry of `collected_tool_calls`. -/
structure ToolAcc where
  name : String
  args : ArgsVal
deriving DecidableEq, Repr

/-- The `while len(collected_tool_calls) <= index: append(...)` padding. -/
def padAcc (l : List ToolAcc) (index : Nat) : List ToolAcc :=
  l ++ List.replicate (index + 1 - l.length) ⟨"", ArgsVal.raw ""⟩

/-- Apply one tool-call fragment (claude_service.py lines 404-417): pad
to the index, overwrite the name when the fragment carries one, and
append to the arguments string.  Appending to already-parsed arguments
is a `TypeError` in the source, modelled as `none`. -/
def applyFrag (acc : List ToolAcc) (f : ToolFrag) : Option (List ToolAcc) :=
  let acc := padAcc acc f.index
  let acc := if f.name ≠ "" then
      acc.set f.index { acc.getD f.index ⟨"", ArgsVal.raw ""⟩ with name := f.name }
    else acc
  if f.args ≠ "" then
    match (acc.getD f.index ⟨"", ArgsVal.raw ""⟩).args with
    | .raw s =>
      some (acc.set f.index
        { acc.getD f.index ⟨"", ArgsVal.raw ""⟩ with args := ArgsVal.raw (s ++ f.args) })
    | .parsed _ => none
  else some acc

/-- Fold `applyFrag` over the fragments of one delta. -/
def applyFrags (acc : List ToolAcc) : List ToolFrag → Option (List ToolAcc)
  | [] => some acc
  | f :: rest =>
    match applyFrag acc f with
    | some acc' => applyFrags acc' rest
    | none => none

/-- The terminal-chunk pass (claude_service.py lines 424-430): parse
each still-raw arguments string, an unparseable one becoming the empty
object. -/
def parseAccArgs (P : String → Option (List (String × String))) (l : List ToolAcc) :
    List ToolAcc :=
  l.map (fun t =>
    match t.args with
    | .raw s => { t with args := ArgsVal.parsed ((P s).getD []) }
    | .parsed _ => t)

/-- A normalized event yielded by `chat_stream`: the Ollama-like
`result` dict with its optional message content, optional tool calls,
and `done` flag. -/
structure AEvent where
  content : Option String
  tool_calls : Option (List ToolAcc)
  done : Bool
deriving DecidableEq, Repr

/-- The event yielded for the transport-level `[DONE]` sentinel. -/
def pureDoneEvent : AEvent := ⟨none, none, true⟩

/-- Process one parsed data chunk (claude_service.py lines 390-437):
apply tool-call fragments, and yield the result when its message is
truthy or it is final.  `none` models a propagating `TypeError`. -/
def processDataChunk (P : String → Option (List (String × String)))
    (acc : List ToolAcc) (delta : Delta) (finish : Option String) :
    Option (List ToolAcc × List AEvent) :=
  match applyFrags acc delta.toolFrags with
  | none => none
  | some acc =>
    let contentOpt := if delta.content ≠ "" then some delta.content else none
    let finishTruthy := match finish with | none => false | some s => s ≠ ""
    if finishTruthy then
      let acc := parseAccArgs P acc
      some (acc, [{ content := contentOpt,
                    tool_calls := if acc ≠ [] then some acc else none,
                    done := true }])
    else if contentOpt.isSome then
      some (acc, [{ content := contentOpt, tool_calls := none, done := false }])
    else
      some (acc, [])

/-- Outcome of running the adapter generator to completion: the yielded
events, tagged by whether the generator finished or an exception
propagated after the listed events. -/
inductive StreamOut
  | ok (events : List AEvent)
  | err (events : List AEvent)
deriving DecidableEq, Repr

/-- Prefix the yielded events of an outcome. -/
def StreamOut.prepend (evs : List AEvent) : StreamOut → StreamOut
  | .ok l => .ok (evs ++ l)
  | .err l => .err (evs ++ l)

/-- The yielded events of an outcome. -/
def StreamOut.events : StreamOut → List AEvent
  | .ok l => l
  | .err l => l

/-- The `async for line in response.aiter_lines()` loop of
`chat_stream`, over the modelled wire lines: `[DONE]` yields the pure
done event and breaks; unparseable bodies are skipped; chunk processing
accumulates tool-call state across lines. -/
def chat_stream_lines (P : String → Option (List (String × String))) :
    List ToolAcc → List WireLine → StreamOut
  | _, [] => .ok []
  | acc, l :: rest =>
    match l with
    | .other => chat_stream_lines P acc rest
    | .badJson => chat_stream_lines P acc rest
    | .doneSentinel => .ok [pureDoneEvent]
    | .badChoices => .err []
    | .chunk d f =>
      match processDataChunk P acc d f with
      | none => .err []
      | some (acc', evs) => StreamOut.prepend evs (chat_stream_lines P acc' rest)

/-- `chat_stream` on a wire input, starting from the empty
`collected_tool_calls`. -/
def chat_stream (P : String → Option (List (String × String)))
    (lines : List WireLine) : StreamOut :=
  chat_stream_lines P [] lines

/-- Is every `done`-flagged event the last element of the sequence? -/
def doneIsTerminal : List AEvent → Bool
  | [] => true
  | e :: rest => (!e.done || rest.isEmpty) && doneIsTerminal rest

/-! ### Tool-result sanitization (`app/routers/chat.py`,
`sanitize_tool_result_for_context`, lines 236-286)

JSON-compatible Python values are modelled by the mutual inductive
`JVal`/`JArr`/`JObj` (dicts as key-value spines in insertion order).
`json.dumps` is only ever used for its output length, modelled by
`dumpsLen`. -/

mutual
/-- A JSON-compatible Python value. -/
inductive JVal where
  | str (s : String)
  | int (n : Int)
  | bool (b : Bool)
  | null
  | arr (xs : JArr)
  | obj (fs : JObj)
/-- Spine of a JSON array. -/
inductive JArr where
  | nil
  | cons (v : JVal) (rest : JArr)
/-- Spine of a JSON object, in insertion order. -/
inductive JObj where
  | nil
  | cons (k : String) (v : JVal) (rest : JObj)
end

/-- Length of a JSON array. -/
def JArr.length : JArr → Nat
  | .nil => 0
  | .cons _ rest => rest.length + 1

/-- Python `list[:n]`. -/
def JArr.take : Nat → JArr → JArr
  | 0, _ => .nil
  | _, .nil => .nil
  | n + 1, .cons v rest => .cons v (JArr.take n rest)

/-- `List.replicate` for `JArr` (used to build inputs). -/
def JArr.replicate : Nat → JVal → JArr
  | 0, _ => .nil
  | n + 1, v => .cons v (JArr.replicate n v)

/-- Number of keys of an object. -/
def JObj.length : JObj → Nat
  | .nil => 0
  | .cons _ _ rest => rest.length + 1

/-- Python `d.get(k)` / `k in d` on the first matching key. -/
def JObj.lookup : JObj → String → Option JVal
  | .nil, _ => none
  | .cons k v rest, key => if k = key then some v else rest.lookup key

/-- Python `d[k] = v`: replace the first matching key in place, else
append at the end (insertion order). -/
def JObj.set : JObj → String → JVal → JObj
  | .nil, key, v => .cons key v .nil
  | .cons k v0 rest, key, v =>
    if k = key then .cons k v rest else .cons k v0 (rest.set key v)

/-- Python `list(d.items())`: the snapshot of key-value pairs. -/
def JObj.pairs : JObj → List (String × JVal)
  | .nil => []
  | .cons k v rest => (k, v) :: rest.pairs

/-- The keys of an object. -/
def JObj.keys (o : JObj) : List String := o.pairs.map Prod.fst

/-- Python `len(value)`: defined for strings, lists and dicts, a
`TypeError` (modelled as `none`) otherwise. -/
def JVal.pyLen : JVal → Option Nat
  | .str s => some s.length
  | .arr xs => some xs.length
  | .obj fs => some fs.length
  | _ => none

/-- Length of the `ensure_ascii` JSON escape of one character. -/
def escLen (c : Char) : Nat :=
  if c = '"' || c = '\\' then 2
  else if c = '\x08' || c = '\x0c' || c = '\n' || c = '\r' || c = '\t' then 2
  else if c.toNat < 0x20 then 6
  else if c.toNat < 0x7f then 1
  else if c.toNat < 0x10000 then 6
  else 12

/-- `len(json.dumps(s))` for a string. -/
def strDumpLen (s : String) : Nat := 2 + (s.data.map escLen).sum

/-- `len(repr(n))` for an integer. -/
def intReprLen (n : Int) : Nat := (toString n).length

mutual
/-- `len(json.dumps(v))` with the default separators `", "` / `": "`. -/
def dumpsLen : JVal → Nat
  | .str s => strDumpLen s
  | .int n => intReprLen n
  | .bool b => if b then 4 else 5
  | .null => 4
  | .arr xs => 2 + dumpsLenArr xs + 2 * (JArr.length xs - 1)
  | .obj fs => 2 + dumpsLenObj fs + 2 * (JObj.length fs - 1)
/-- Sum of element dump-lengths of an array. -/
def dumpsLenArr : JArr → Nat
  | .nil => 0
  | .cons v rest => dumpsLen v + dumpsLenArr rest
/-- Sum of `"key": value` dump-lengths of an object. -/
def dumpsLenObj : JObj → Nat
  | .nil => 0
  | .cons k v rest => strDumpLen k + 2 + dumpsLen v + dumpsLenObj rest
end

/-- `f"[BASE64_DATA: \x7bn\x7d chars - delivered to client]"`. -/
def b64Placeholder (n : Nat) : String :=
  "[BASE64_DATA: " ++ toString n ++ " chars - delivered to client]"

/-- `f"[DATA_URI: \x7bn\x7d chars - delivered to client]"`. -/
def dataUriPlaceholder (n : Nat) : String :=
  "[DATA_URI: " ++ toString n ++ " chars - delivered to client]"

/-- `f"... [truncated, \x7bn\x7d chars total]"`. -/
def truncSuffix (n : Nat) : String :=
  "... [truncated, " ++ toString n ++ " chars total]"

/-- The base64 pass (chat.py lines 253-257): replace a present `base64`
field by a size-only placeholder and record `_base64_stripped`.  `len()`
of a non-sized value is a `TypeError`, modelled as `none`. -/
def base64Step (fs : JObj) : Option JObj :=
  match fs.lookup "base64" with
  | none => some fs
  | some v =>
    match v.pyLen with
    | none => none
    | some n =>
      some ((fs.set "base64" (.str (b64Placeholder n))).set "_base64_stripped" (.bool true))

/-- One data-URI check of the url pass (chat.py lines 261-265). -/
def urlOne (fs : JObj) (k : String) : JObj :=
  match fs.lookup k with
  | some (.str s) =>
    if s.startsWith "data:" then fs.set k (.str (dataUriPlaceholder s.length)) else fs
  | _ => fs

/-- The url pass over `["url", "image_url", "video_url"]`. -/
def urlStep (fs : JObj) : JObj := urlOne (urlOne (urlOne fs "url") "image_url") "video_url"

/-- One iteration of the truncation loop (chat.py lines 268-276) on a
snapshot pair: strings over 10000 characters are truncated with a
size-noting suffix; lists whose JSON serialization exceeds 10000
characters and which have more than 20 elements are capped at 20 with
two bookkeeping keys appended. -/
def truncOne (fs : JObj) (kv : String × JVal) : JObj :=
  match kv with
  | (k, .str s) =>
    if 10000 < s.length then fs.set k (.str (s.take 10000 ++ truncSuffix s.length)) else fs
  | (k, .arr xs) =>
    if 10000 < dumpsLen (.arr xs) then
      if 20 < xs.length then
        ((fs.set k (.arr (JArr.take 20 xs))).set ("_" ++ k ++ "_truncated") (.bool true)).set
          ("_" ++ k ++ "_total_count") (.int (xs.length : Int))
      else fs
    else fs
  | _ => fs

/-- The truncation loop over `list(sanitized.items())`: iterate over the
snapshot of pairs taken before the loop starts. -/
def truncStep (fs : JObj) : JObj := fs.pairs.foldl truncOne fs

/-- `sanitize_tool_result_for_context` (the `tool_name` argument is only
logged and is omitted): non-dict results are returned unchanged; dicts
go through the base64, data-URI and truncation passes.  `none` models a
propagating `TypeError` from `len()` on an unsized `base64` value. -/
def sanitize_tool_result_for_context : JVal → Option JVal
  | .obj fs =>
    match base64Step fs with
    | none => none
    | some fs => some (.obj (truncStep (urlStep fs)))
  | v => some v

/-! ### Context building with compaction (`app/routers/chat.py`,
`build_context_with_compaction`, lines 361-445) -/

/-- Collaborators of `build_context_with_compaction` that are not under
the application's own source (the compaction service and conversation
store), gathered as an environment.

Modelled from the spec: `compaction_service.should_compact` /
`compact_conversation` / `build_compacted_messages` and the store's
summary state are missing from the source tree; per spec §4.4 a failing
summarization yields no compaction record (fail open) rather than
raising, so `compact_result = none` models every failure mode. -/
structure CompactionEnv where
  compaction_enabled : Bool
  num_ctx : Nat
  current_summary : Option String
  should_compact : Bool
  indices : List Nat
  compact_result : Option String
  build_compacted : List Msg → String → List Nat → List Msg
  conv_compacted_flags : Option (List Bool)

/-- Python truthiness of an optional string (`None` and `""` falsy). -/
def pyTruthyOptStr : Option String → Bool
  | none => false
  | some s => s ≠ ""

/-- `[i for i, msg in enumerate(conv.messages) if msg.compacted]`. -/
def compactedIndices (flags : List Bool) : List Nat :=
  (flags.enum.filter (fun p => p.2)).map Prod.fst

/-- `build_context_with_compaction`: disabled compaction falls to
simple truncation; a triggered compaction rebuilds the list from the
record's summary or, when no record comes back, falls back to simple
truncation of the original list; otherwise an existing summary is
spliced back in; a final safety truncation always runs. -/
def build_context_with_compaction (env : CompactionEnv) (messages : List Msg) : List Msg :=
  if !env.compaction_enabled then
    truncate_messages_for_context messages env.num_ctx 1000
  else if env.should_compact then
    match env.compact_result with
    | some summary =>
      truncate_messages_for_context
        (env.build_compacted messages summary env.indices) env.num_ctx 1000
    | none => truncate_messages_for_context messages env.num_ctx 1000
  else
    let messages :=
      if pyTruthyOptStr env.current_summary then
        match env.conv_compacted_flags with
        | some flags =>
          if compactedIndices flags ≠ [] then
            env.build_compacted messages (env.current_summary.getD "") (compactedIndices flags)
          else messages
        | none => messages
      else messages
    truncate_messages_for_context messages env.num_ctx 1000

/-- Concrete environment used by the C8 witness: compaction enabled and
triggered, but the compaction call returns no record. -/
def c8WitnessEnv : CompactionEnv :=
  ⟨true, 4096, none, true, [], none, fun m _ _ => m, none⟩

/-! ### Cancel endpoint (`app/routers/chat.py`, `cancel_generation`,
lines 67-114)

The conversation store is not under the application's own source;
modelled from the spec (§6): `update_message(conv_id, msg_id, content)`
replaces a message's content in place and `add_message` appends.  A
conversation is its message list; message content is a char list with
`[]` modelling both `None` and `""`. -/

/-- A stored message: role plus content. -/
structure StoredMsg where
  role : String
  content : List Char
deriving DecidableEq, Repr

/-- State observable by the cancel endpoint: whether `_active_generations`
holds an event for the conversation, whether that event is set, and the
stored conversation (`none` when `conversation_store.get` finds
nothing for this user). -/
structure CancelState where
  flagExists : Bool
  flagSet : Bool
  conv : Option (List StoredMsg)
deriving DecidableEq, Repr

/-- The persisted stop marker `"*[Generation stopped by user]*"`. -/
def stopNote : List Char := "*[Generation stopped by user]*".data

/-- Is `pat` a prefix of `hay`? -/
def listStartsWith : List Char → List Char → Bool
  | _, [] => true
  | [], _ :: _ => false
  | c :: cs, d :: ds => c = d && listStartsWith cs ds

/-- Python `pat in hay` on strings: substring occurrence. -/
def hasSub : List Char → List Char → Bool
  | [], pat => listStartsWith [] pat
  | hay@(_ :: t), pat => listStartsWith hay pat || hasSub t pat

/-- Index of the last message with role `assistant`
(`next((m for m in reversed(conv.messages) if m.role == "assistant"), None)`). -/
def lastAssistantIdx : List StoredMsg → Option Nat
  | [] => none
  | m :: rest =>
    match lastAssistantIdx rest with
    | some i => some (i + 1)
    | none => if m.role = "assistant" then some 0 else none

/-- `update_message`: replace the content of the message at an index. -/
def setContent : List StoredMsg → Nat → List Char → List StoredMsg
  | [], _, _ => []
  | m :: rest, 0, c => ⟨m.role, c⟩ :: rest
  | m :: rest, i + 1, c => m :: setContent rest i c

/-- Message at an index (callers only use in-range indices). -/
def getMsg (msgs : List StoredMsg) (i : Nat) : StoredMsg := msgs.getD i ⟨"", []⟩

/-- The best-effort persistence block of `cancel_generation` (chat.py
lines 92-107): find the last assistant message; an empty (or
whitespace-only) one gets the stop note as content, one not yet
containing the note gets it appended after a blank line, and one
already containing it is left alone; with no assistant message at all a
new one holding the note is appended. -/
def cancelPersist (msgs : List StoredMsg) : List StoredMsg :=
  match lastAssistantIdx msgs with
  | some i =>
    let content := pyStripRight (getMsg msgs i).content
    if content = [] then setContent msgs i stopNote
    else if hasSub content stopNote = false then
      setContent msgs i (content ++ "\n\n".data ++ stopNote)
    else msgs
  | none => msgs ++ [⟨"assistant", stopNote⟩]

/-- `cancel_generation` (chat.py lines 67-114) as a state transformer:
set the cancellation event when one exists, then best-effort persist
the stop note. -/
def cancel_generation (s : CancelState) : CancelState :=
  { flagExists := s.flagExists,
    flagSet := s.flagSet || s.flagExists,
    conv := s.conv.map cancelPersist }

/-! ### Stream orchestrator loop (`app/routers/chat.py`,
`event_generator`, lines 904-1148)

The provider stream is consumed through a pending-read with a one-second
timeout; an iteration of the `while True` loop therefore sees either a
timeout, a chunk, or the stream's end, after first reading the
cancellation flag.  Timing is modelled by the iteration schedule: each
`timeout` item stands for an expired one-second wait (whose keepalive
rate limit, one emission per second, is satisfied), and the partial
persistence gate ("every 1 second or 100 chars") is modelled as firing
on every content chunk; the cancellation path overwrites the record
with the full collected content regardless, so no claim depends on the
gate.  Only `token`-family and `done` SSE events are modelled; the
`conversation`/`message`/`context` events carry ids and metadata that no
claim here mentions. -/

/-- A native tool call as carried by a chunk (opaque to the loop, which
only stores the latest batch and tests emptiness). -/
structure RawTC where
  name : String
  args : String
deriving DecidableEq, Repr

/-- One chunk from the provider stream adapter, in the Ollama-like shape
consumed by the loop: `msg.get("thinking")`, `msg.get("content")`,
`msg.get("tool_calls")` (with `""`/`[]` modelling missing — falsy —
fields) and the `done` flag. -/
structure Chunk where
  thinking : String
  content : String
  tool_calls : List RawTC
  done : Bool
deriving DecidableEq, Repr

/-- What one loop iteration observes after the cancellation check. -/
inductive UpEvent
  | timeout
  | chunk (c : Chunk)
  | streamEnd
deriving DecidableEq, Repr

/-- One iteration of the loop: the cancellation flag as read at the top
plus the observed upstream event. -/
structure Iter where
  cancelled : Bool
  ev : UpEvent
deriving DecidableEq, Repr

/-- A `token` SSE event payload: `{thinking}`, `{thinking_done}`,
`{content}`, or the cancellation token
`{thinking_done: true, cancelled: true, message: ...}`. -/
inductive TokEv
  | thinkingTok (s : String)
  | thinkingDone
  | contentTok (s : String)
  | cancelledTok
deriving DecidableEq, Repr

/-- The loop's mutable state: the thinking/keepalive flags, counters and
accumulators of `event_generator`, plus the placeholder assistant
record (`persisted = some c` when `assistant_msg_id` exists and the
stored content is `c`). -/
structure LoopState where
  is_thinking : Bool
  thinking_stream_active : Bool
  artificial_thinking_active : Bool
  thinking_token_count : Nat
  collected_thinking : String
  collected_content : String
  tool_calls : List RawTC
  persisted : Option String
deriving DecidableEq, Repr

/-- How the streaming loop ended. -/
inductive Outcome
  | doneBreak
  | hardLimitBreak
  | streamEnd
  | cancelled
deriving DecidableEq, Repr

/-- `THINKING_HARD_LIMIT_INITIAL` (config.py, default). -/
def THINKING_HARD_LIMIT_INITIAL : Nat := 30000

/-- The cancellation marker appended to the persisted content. -/
def cancelNote : String := "\n\n*[Generation cancelled by user]*"

/-- The keepalive/progress token text. -/
def keepaliveTok : String := "…"

/-- The fallback sent when thinking produced no content. -/
def fallbackMsg : String :=
  "I apologize, but I wasn\x27t able to formulate a response. Could you please rephrase your question?"

/-- The thinking-finished boundary (chat.py lines 1074-1081 and
1108-1113): emit `{thinking_done}` when thinking (or the keepalive
thinking stream) is active. -/
def markerStep (st : LoopState) (evs : List TokEv) : LoopState × List TokEv :=
  if st.is_thinking || st.thinking_stream_active then
    ({ st with is_thinking := false, thinking_stream_active := false },
     evs ++ [TokEv.thinkingDone])
  else (st, evs)

/-- The content branch (chat.py lines 1072-1100): boundary marker,
accumulate, forward, persist the running content. -/
def contentStep (st : LoopState) (evs : List TokEv) (c : Chunk) : LoopState × List TokEv :=
  if c.content ≠ "" then
    let m := markerStep st evs
    ({ m.1 with
        collected_content := m.1.collected_content ++ c.content,
        persisted := m.1.persisted.map (fun _ => m.1.collected_content ++ c.content) },
     m.2 ++ [TokEv.contentTok c.content])
  else (st, evs)

/-- The tool-call branch (chat.py lines 1102-1104): store the batch. -/
def toolStep (st : LoopState) (c : Chunk) : LoopState :=
  if c.tool_calls ≠ [] then { st with tool_calls := c.tool_calls } else st

/-- The done branch (chat.py lines 1106-1114). -/
def doneStep (st : LoopState) (evs : List TokEv) (c : Chunk) :
    LoopState × List TokEv × Option Outcome :=
  if c.done then
    if st.is_thinking || st.thinking_stream_active then
      ({ st with thinking_stream_active := false }, evs ++ [TokEv.thinkingDone],
       some Outcome.doneBreak)
    else (st, evs, some Outcome.doneBreak)
  else (st, evs, none)

/-- Content, tool-call and done handling of one chunk. -/
def processChunkRest (st : LoopState) (evs : List TokEv) (c : Chunk) :
    LoopState × List TokEv × Option Outcome :=
  let r := contentStep st evs c
  doneStep (toolStep r.1 c) r.2 c

/-- Process one received chunk (chat.py lines 1043-1114): disable the
artificial keepalive on real activity, handle thinking tokens with the
hard runaway limit (whose `break` skips the rest of the chunk), then
content, tool calls, and `done`. -/
def processChunk (st : LoopState) (c : Chunk) : LoopState × List TokEv × Option Outcome :=
  let st0 := if c.thinking ≠ "" ∨ c.content ≠ "" ∨ c.tool_calls ≠ [] then
      { st with artificial_thinking_active := false } else st
  if c.thinking ≠ "" then
    let st1 := { st0 with
      is_thinking := true,
      thinking_token_count := st0.thinking_token_count + 1,
      collected_thinking := st0.collected_thinking ++ c.thinking }
    if THINKING_HARD_LIMIT_INITIAL < st1.thinking_token_count then
      (st1, [TokEv.thinkingTok c.thinking], some Outcome.hardLimitBreak)
    else processChunkRest st1 [TokEv.thinkingTok c.thinking] c
  else processChunkRest st0 [] c

/-- The `while True` loop (chat.py lines 991-1114): check cancellation,
then handle a timeout (keepalive), the stream's end, or a chunk. -/
def runLoop : LoopState → List Iter → LoopState × List TokEv × Outcome
  | st, [] => (st, [], Outcome.streamEnd)
  | st, it :: rest =>
    if it.cancelled then
      ({ st with persisted := st.persisted.map (fun _ => st.collected_content ++ cancelNote) },
       [TokEv.cancelledTok], Outcome.cancelled)
    else
      match it.ev with
      | .streamEnd => (st, [], Outcome.streamEnd)
      | .timeout =>
        if st.artificial_thinking_active then
          let r := runLoop { st with is_thinking := true } rest
          (r.1, TokEv.thinkingTok keepaliveTok :: r.2.1, r.2.2)
        else runLoop st rest
      | .chunk c =>
        match processChunk st c with
        | (st', evs, some out) => (st', evs, out)
        | (st', evs, none) =>
          let r := runLoop st' rest
          (r.1, evs ++ r.2.1, r.2.2)

/-- The loop state on entry (chat.py lines 568, 816-824, 897-912,
984): both keepalive thinking streams already started, counters and
accumulators empty, the placeholder record as created (`some ""` on the
fast path, `none` otherwise). -/
def initialLoopState (placeholder : Option String) : LoopState :=
  { is_thinking := true, thinking_stream_active := true, artificial_thinking_active := true,
    thinking_token_count := 0, collected_thinking := "", collected_content := "",
    tool_calls := [], persisted := placeholder }

/-- The streaming phase of one turn: the two pre-loop keepalive thinking
tokens (chat.py lines 569-572 and 909-912), the loop, and — except on
cancellation, which returns immediately — the thinking-but-no-content
fallback (lines 1140-1148). -/
def streamPhase (placeholder : Option String) (input : List Iter) :
    LoopState × List TokEv × Outcome :=
  let r := runLoop (initialLoopState placeholder) input
  let st := r.1
  let evs := TokEv.thinkingTok keepaliveTok :: TokEv.thinkingTok keepaliveTok :: r.2.1
  match r.2.2 with
  | .cancelled => (st, evs, Outcome.cancelled)
  | out =>
    if st.collected_thinking ≠ "" ∧ st.collected_content = "" ∧ st.tool_calls = [] then
      ({ st with collected_content := fallbackMsg }, evs ++ [TokEv.contentTok fallbackMsg], out)
    else (st, evs, out)

/-- An SSE event of the turn, restricted to the kinds the claims
mention: `token` events and the terminal `done` event. -/
inductive SSEEv
  | tok (t : TokEv)
  | doneEv
deriving DecidableEq, Repr

/-- The turn's emitted event sequence on the path without tool calls: a
cancelled stream phase returns at once (chat.py line 1012), with no
`done` event; otherwise finalization ends with the `done` event
(line 1482). -/
def turnEventsNoTool (placeholder : Option String) (input : List Iter) : List SSEEv :=
  let r := streamPhase placeholder input
  match r.2.2 with
  | .cancelled => r.2.1.map SSEEv.tok
  | _ => r.2.1.map SSEEv.tok ++ [SSEEv.doneEv]

/-- Is this a `{content}` token event? -/
def isContentTok : TokEv → Bool
  | .contentTok _ => true
  | _ => false

/-- Are all events `{content}` tokens? -/
def allContentTok : List TokEv → Bool
  | [] => true
  | e :: rest => isContentTok e && allContentTok rest

/-- The ordering pattern of claim C1 on a turn's token events: some
`{thinking}` events, then exactly one `{thinking_done}` marker, then
only `{content}` events. -/
def orderingOK : List TokEv → Bool
  | [] => false
  | .thinkingTok _ :: rest => orderingOK rest
  | .thinkingDone :: rest => allContentTok rest
  | _ => false

/-- Does this iteration carry a chunk with thinking text? -/
def chunkHasThinking : Iter → Bool
  | ⟨_, .chunk c⟩ => c.thinking ≠ ""
  | _ => false

/-- Does this iteration carry a chunk with content text? -/
def chunkHasContent : Iter → Bool
  | ⟨_, .chunk c⟩ => c.content ≠ ""
  | _ => false

/-- No chunk of the schedule carries thinking text. -/
def noThinkingChunks (input : List Iter) : Bool :=
  input.all (fun it => !chunkHasThinking it)

/-- The provider emits no thinking chunk after a content chunk. -/
def wellOrdered : List Iter → Bool
  | [] => true
  | it :: rest => (!chunkHasContent it || noThinkingChunks rest) && wellOrdered rest

/-- The streaming state once content has been emitted: both thinking
streams closed, the keepalive disabled, content non-empty. -/
def phaseB (st : LoopState) : Prop :=
  st.is_thinking = false ∧ st.thinking_stream_active = false ∧
  st.artificial_thinking_active = false ∧ st.collected_content ≠ ""

/-- The interleaved provider schedule of C1's counterexample:
thinking, content, thinking again, content again, done. -/
def c1CexInput : List Iter :=
  [⟨false, .chunk ⟨"T", "", [], false⟩⟩, ⟨false, .chunk ⟨"", "c", [], false⟩⟩,
   ⟨false, .chunk ⟨"U", "", [], false⟩⟩, ⟨false, .chunk ⟨"", "d", [], false⟩⟩,
   ⟨false, .chunk ⟨"", "", [], true⟩⟩]

/-- A well-ordered provider schedule used by witnesses. -/
def c1WitnessInput : List Iter :=
  [⟨false, .timeout⟩, ⟨false, .chunk ⟨"T", "", [], false⟩⟩,
   ⟨false, .chunk ⟨"", "hi", [], false⟩⟩, ⟨false, .chunk ⟨"", "", [], true⟩⟩]

/-! ## Theorems -/

/-- Helper: the backward scan stops at the last message immediately when
that message has role `user`, so `critical_start` is the index of the
final message. -/
theorem critical_start_append_user (ms : List Msg) (m : Msg) (h : m.role = "user") :
    critical_start (ms ++ [m]) = ms.length := by
  unfold critical_start
  have hlen : (ms ++ [m]).length = ms.length + 1 := by simp
  rw [hlen, List.range_succ, List.reverse_append]
  simp only [List.reverse_singleton, List.singleton_append]
  unfold criticalLoop
  have hget : (ms ++ [m])[ms.length]? = some m := by
    rw [List.getElem?_append_right (Nat.le_refl _)]
    simp
  rw [hget]
  simp [h]

/-- Claim C4: for every non-empty message list whose estimated token
count exceeds the available budget and whose final message has role
`user`, the output of `truncate_messages_for_context` still contains
that final user message verbatim. -/
theorem truncate_keeps_final_user_message (ms : List Msg) (m : Msg)
    (max_tokens reserve_tokens : Nat)
    (hrole : m.role = "user")
    (hover : ((((ms ++ [m]).map (fun x => estimate_tokens x.content)).sum : Int) >
      (max_tokens : Int) - (reserve_tokens : Int))) :
    m ∈ truncate_messages_for_context (ms ++ [m]) max_tokens reserve_tokens := by
  unfold truncate_messages_for_context
  have hne : ¬(ms ++ [m] = []) := by simp
  rw [if_neg hne, if_neg (by exact not_le.mpr hover)]
  rw [critical_start_append_user ms m hrole]
  have hdrop : (ms ++ [m]).drop ms.length = [m] := List.drop_left ms [m]
  dsimp only
  rw [hdrop]
  split <;> split <;> simp

/-- Witness for C4: a concrete over-budget list ending in a user message
keeps that message. -/
theorem truncate_keeps_final_user_message_witness :
    let ms := [Msg.mk "user" "this is some earlier conversation history text"]
    let m := Msg.mk "user" "hello"
    m ∈ truncate_messages_for_context (ms ++ [m]) 1001 1000 :=
  truncate_keeps_final_user_message _ _ 1001 1000 rfl (by decide)

/-- Claim C10: when the total estimated token count is at most
`max_tokens - reserve_tokens`, `truncate_messages_for_context` is the
identity. -/
theorem truncate_identity_within_budget (messages : List Msg) (max_tokens reserve_tokens : Nat)
    (h : (((messages.map (fun m => estimate_tokens m.content)).sum : Int) ≤
      (max_tokens : Int) - (reserve_tokens : Int))) :
    truncate_messages_for_context messages max_tokens reserve_tokens = messages := by
  unfold truncate_messages_for_context
  by_cases he : messages = []
  · rw [if_pos he]
  · rw [if_neg he, if_pos h]

/-- Witness for C10: a small in-budget list is returned unchanged. -/
theorem truncate_identity_within_budget_witness :
    truncate_messages_for_context [Msg.mk "user" "hi"] 2000 1000 = [Msg.mk "user" "hi"] :=
  truncate_identity_within_budget _ 2000 1000 (by decide)

/-- Claim C3, counterexample: feeding `"Hello world. This is a test."`
one character at a time and then flushing does NOT yield the two
sentences `"Hello world."` and `"This is a test."`; it yields no
sentence from `add_token` and a single combined flush string, because
`"Hello world."` (12 chars) is below `MIN_SENTENCE_LEN = 20` and is
held as a pending fragment. -/
theorem sentence_buffer_roundtrip_counterexample :
    (feedChars SentenceBuffer.init "Hello world. This is a test.".data).2 ++
      ((feedChars SentenceBuffer.init "Hello world. This is a test.".data).1.flush).2.toList =
      ["Hello world. This is a test.".data] ∧
    ¬((feedChars SentenceBuffer.init "Hello world. This is a test.".data).2 ++
      ((feedChars SentenceBuffer.init "Hello world. This is a test.".data).1.flush).2.toList =
      ["Hello world.".data, "This is a test.".data]) := by
  decide

/-- Claim C3, amended: feeding `"Hello world. This is a test."` one
character at a time yields no sentences from `add_token` (the first
sentence is below the 20-character minimum and is held), and `flush`
returns the single string `"Hello world. This is a test."`; no
characters are lost or duplicated — the concatenation of everything
returned equals the input exactly. -/
theorem sentence_buffer_roundtrip_amended :
    (feedChars SentenceBuffer.init "Hello world. This is a test.".data).2 = [] ∧
    ((feedChars SentenceBuffer.init "Hello world. This is a test.".data).1.flush).2 =
      some "Hello world. This is a test.".data ∧
    ((feedChars SentenceBuffer.init "Hello world. This is a test.".data).2 ++
      ((feedChars SentenceBuffer.init "Hello world. This is a test.".data).1.flush).2.toList).flatten =
      "Hello world. This is a test.".data := by
  decide

/-- Claim C5, counterexample: on the (standard) wire input of a chunk
carrying `finish_reason` followed by the `[DONE]` sentinel, the adapter
yields a `done: true` event for the finish chunk and then ANOTHER event
for the sentinel — so a `done: true` event is not terminal. -/
theorem adapter_done_terminal_counterexample :
    chat_stream (fun _ => none)
      [WireLine.chunk ⟨"hi", []⟩ (some "stop"), WireLine.doneSentinel] =
      StreamOut.ok [⟨some "hi", none, true⟩, pureDoneEvent] ∧
    doneIsTerminal (StreamOut.events (chat_stream (fun _ => none)
      [WireLine.chunk ⟨"hi", []⟩ (some "stop"), WireLine.doneSentinel])) = false := by
  decide

/-- Claim C5, amended: the event produced by the transport-level
`[DONE]` sentinel is terminal — lines after the first sentinel are never
processed, and whenever the generator finishes normally on an input
ending at that sentinel, the sentinel's done event is the last element
of the yielded sequence.  (A `done: true` event produced by a
`finish_reason` chunk, by contrast, may be followed by further events;
the main loop stops at the first `done` it sees.) -/
theorem adapter_done_sentinel_terminal (P : String → Option (List (String × String)))
    (acc : List ToolAcc) (pre post : List WireLine) :
    chat_stream_lines P acc (pre ++ WireLine.doneSentinel :: post) =
      chat_stream_lines P acc (pre ++ [WireLine.doneSentinel]) ∧
    (∀ evs, chat_stream_lines P acc (pre ++ [WireLine.doneSentinel]) = StreamOut.ok evs →
      evs.getLast? = some pureDoneEvent) := by
  induction pre generalizing acc with
  | nil =>
    refine ⟨rfl, ?_⟩
    intro evs h
    simp only [List.nil_append, chat_stream_lines] at h
    cases h
    rfl
  | cons l pre ih =>
    cases l with
    | other => simpa [chat_stream_lines] using ih acc
    | badJson => simpa [chat_stream_lines] using ih acc
    | doneSentinel =>
      refine ⟨rfl, ?_⟩
      intro evs h
      simp only [List.cons_append, chat_stream_lines] at h
      cases h
      rfl
    | badChoices =>
      refine ⟨rfl, ?_⟩
      intro evs h
      simp only [List.cons_append, chat_stream_lines] at h
      cases h
    | chunk d f =>
      simp only [List.cons_append, chat_stream_lines, List.append_eq]
      cases hp : processDataChunk P acc d f with
      | none => exact ⟨rfl, fun evs h => by cases h⟩
      | some r =>
        obtain ⟨acc', evs0⟩ := r
        dsimp only
        refine ⟨by rw [(ih acc').1], ?_⟩
        intro evs h
        cases hrec : chat_stream_lines P acc' (pre ++ [WireLine.doneSentinel]) with
        | ok l' =>
          rw [hrec] at h
          simp only [StreamOut.prepend] at h
          cases h
          have hl' := (ih acc').2 l' hrec
          have hne : l' ≠ [] := by
            intro hnil
            rw [hnil] at hl'
            simp at hl'
          rw [List.getLast?_append_of_ne_nil _ hne]
          exact hl'
        | err l' =>
          rw [hrec] at h
          simp only [StreamOut.prepend] at h
          cases h

/-- Witness for C5's amended theorem at a concrete input. -/
theorem adapter_done_sentinel_terminal_witness :
    (chat_stream_lines (fun _ => none) []
        ([WireLine.other] ++ WireLine.doneSentinel :: [WireLine.chunk ⟨"x", []⟩ none]) =
      chat_stream_lines (fun _ => none) [] ([WireLine.other] ++ [WireLine.doneSentinel])) ∧
    ([pureDoneEvent] : List AEvent).getLast? = some pureDoneEvent :=
  ⟨(adapter_done_sentinel_terminal (fun _ => none) [] [WireLine.other]
      [WireLine.chunk ⟨"x", []⟩ none]).1,
   (adapter_done_sentinel_terminal (fun _ => none) [] [WireLine.other]
      [WireLine.chunk ⟨"x", []⟩ none]).2 [pureDoneEvent] (by decide)⟩

/-- Claim C6: tool-call fragments streamed by index are assembled
incrementally — a fragment carrying a name overwrites the name at its
index, and its arguments text is appended to the growing arguments
string — yielding no event until a terminal chunk (`finish_reason`)
arrives, at which point the accumulated arguments string is parsed
(`P`), an unparseable string becoming the empty object. -/
theorem adapter_tool_call_assembly (P : String → Option (List (String × String)))
    (n1 n2 a1 a2 : String) (h1 : n1 ≠ "") (h2 : n2 ≠ "") (ha1 : a1 ≠ "") (ha2 : a2 ≠ "") :
    chat_stream P
      [WireLine.chunk ⟨"", [⟨0, n1, a1⟩]⟩ none,
       WireLine.chunk ⟨"", [⟨0, n2, a2⟩]⟩ none,
       WireLine.chunk ⟨"", []⟩ (some "stop"),
       WireLine.doneSentinel] =
      StreamOut.ok
        [{ content := none,
           tool_calls := some [⟨n2, ArgsVal.parsed ((P (a1 ++ a2)).getD [])⟩],
           done := true },
         pureDoneEvent] := by
  simp [chat_stream, chat_stream_lines, processDataChunk, applyFrags, applyFrag, padAcc,
    parseAccArgs, h1, h2, ha1, ha2, StreamOut.prepend, pureDoneEvent]

/-- Witness for C6 at concrete fragments and a failing parser. -/
theorem adapter_tool_call_assembly_witness :
    chat_stream (fun _ => none)
      [WireLine.chunk ⟨"", [⟨0, "get_weather", "\x7b\x22ci"⟩]⟩ none,
       WireLine.chunk ⟨"", [⟨0, "get_weather", "ty\x22"⟩]⟩ none,
       WireLine.chunk ⟨"", []⟩ (some "stop"),
       WireLine.doneSentinel] =
      StreamOut.ok
        [{ content := none,
           tool_calls := some [⟨"get_weather", ArgsVal.parsed []⟩],
           done := true },
         pureDoneEvent] :=
  adapter_tool_call_assembly (fun _ => none) "get_weather" "get_weather" "\x7b\x22ci" "ty\x22"
    (by decide) (by decide) (by decide) (by decide)

/-! ### Lemmas about `JObj` updates and the sanitization passes -/

/-- Looking up the key just set. -/
theorem JObj.lookup_set_self : ∀ (fs : JObj) (k : String) (v : JVal),
    (fs.set k v).lookup k = some v
  | .nil, k, v => by simp [JObj.set, JObj.lookup]
  | .cons k0 v0 rest, k, v => by
    by_cases h : k0 = k
    · simp [JObj.set, JObj.lookup, h]
    · simp [JObj.set, JObj.lookup, h, JObj.lookup_set_self rest k v]

/-- Setting one key does not change lookups of another. -/
theorem JObj.lookup_set_ne : ∀ (fs : JObj) (k k' : String) (v : JVal), k ≠ k' →
    (fs.set k v).lookup k' = fs.lookup k'
  | .nil, k, k', v, h => by simp [JObj.set, JObj.lookup, h]
  | .cons k0 v0 rest, k, k', v, h => by
    by_cases h0 : k0 = k
    · simp [JObj.set, JObj.lookup, h0, h]
    · simp [JObj.set, JObj.lookup, h0, JObj.lookup_set_ne rest k k' v h]

/-- Membership in the keys of an updated object. -/
theorem JObj.mem_keys_set : ∀ (fs : JObj) (k x : String) (v : JVal),
    x ∈ (fs.set k v).keys ↔ x ∈ fs.keys ∨ x = k
  | .nil, k, x, v => by simp [JObj.set, JObj.keys, JObj.pairs]
  | .cons k0 v0 rest, k, x, v => by
    by_cases h0 : k0 = k
    · subst h0
      rw [show (JObj.cons k0 v0 rest).set k0 v = JObj.cons k0 v rest by simp [JObj.set]]
      rw [show (JObj.cons k0 v rest).keys = k0 :: rest.keys from rfl,
        show (JObj.cons k0 v0 rest).keys = k0 :: rest.keys from rfl]
      simp only [List.mem_cons]
      tauto
    · rw [show (JObj.cons k0 v0 rest).set k v = JObj.cons k0 v0 (rest.set k v) by
        simp [JObj.set, h0]]
      rw [show (JObj.cons k0 v0 (rest.set k v)).keys = k0 :: (rest.set k v).keys from rfl,
        show (JObj.cons k0 v0 rest).keys = k0 :: rest.keys from rfl]
      simp only [List.mem_cons]
      rw [JObj.mem_keys_set rest k x v]
      tauto

/-- `JObj.set` preserves key distinctness. -/
theorem JObj.keysNodup_set : ∀ (fs : JObj) (k : String) (v : JVal), fs.keys.Nodup →
    ((fs.set k v).keys).Nodup
  | .nil, k, v, _ => by simp [JObj.set, JObj.keys, JObj.pairs]
  | .cons k0 v0 rest, k, v, h => by
    have hkeys : (JObj.cons k0 v0 rest).keys = k0 :: rest.keys := rfl
    rw [hkeys, List.nodup_cons] at h
    by_cases h0 : k0 = k
    · rw [show (JObj.cons k0 v0 rest).set k v = JObj.cons k0 v rest by
        simp [JObj.set, h0]]
      rw [show (JObj.cons k0 v rest).keys = k0 :: rest.keys from rfl, List.nodup_cons]
      exact h
    · rw [show (JObj.cons k0 v0 rest).set k v = JObj.cons k0 v0 (rest.set k v) by
        simp [JObj.set, h0]]
      rw [show (JObj.cons k0 v0 (rest.set k v)).keys = k0 :: (rest.set k v).keys from rfl,
        List.nodup_cons]
      refine ⟨?_, JObj.keysNodup_set rest k v h.2⟩
      intro hmem
      rcases (JObj.mem_keys_set rest k k0 v).mp hmem with hin | heq
      · exact h.1 hin
      · exact h0 heq

/-- A string of the form `"_" ++ t₁ ++ t₂` cannot equal a key that does
not start with an underscore. -/
theorem underscore_key_ne (t₁ t₂ k : String) (hk : k.data.head? ≠ some '_') :
    ¬("_" ++ t₁ ++ t₂ = k) := by
  intro h
  apply hk
  rw [← h, String.append_assoc]
  show (("_" : String) ++ (t₁ ++ t₂)).data.head? = some '_'
  rw [String.data_append]
  rfl

/-- `truncOne` at a pair with a different key (and whose bookkeeping
keys start with `_`) does not change the lookup of an
underscore-free key. -/
theorem lookup_truncOne_ne (fs : JObj) (kv : String × JVal) (k : String)
    (hk : k.data.head? ≠ some '_') (hne : kv.1 ≠ k) :
    (truncOne fs kv).lookup k = fs.lookup k := by
  obtain ⟨k0, v⟩ := kv
  simp only at hne
  cases v with
  | str s =>
    simp only [truncOne]
    split
    · exact JObj.lookup_set_ne fs k0 k _ hne
    · rfl
  | arr xs =>
    simp only [truncOne]
    split
    · split
      · rw [JObj.lookup_set_ne _ _ _ _ (underscore_key_ne k0 "_total_count" k hk),
          JObj.lookup_set_ne _ _ _ _ (underscore_key_ne k0 "_truncated" k hk),
          JObj.lookup_set_ne _ _ _ _ hne]
      · rfl
    · rfl
  | int n => rfl
  | bool b => rfl
  | null => rfl
  | obj o => rfl

/-- Folding the truncation loop over pairs whose keys all differ from an
underscore-free key leaves that key's lookup unchanged. -/
theorem lookup_foldl_truncOne_ne (ps : List (String × JVal)) (fs : JObj) (k : String)
    (hk : k.data.head? ≠ some '_') (hps : ∀ p ∈ ps, p.1 ≠ k) :
    (ps.foldl truncOne fs).lookup k = fs.lookup k := by
  induction ps generalizing fs with
  | nil => rfl
  | cons p ps ih =>
    rw [List.foldl_cons, ih _ (fun q hq => hps q (List.mem_cons_of_mem _ hq))]
    exact lookup_truncOne_ne fs p k hk (hps p (List.mem_cons_self _ _))

/-- With distinct keys, a successful lookup splits the pair list around
its unique pair for that key. -/
theorem pairs_split_of_lookup : ∀ (fs : JObj) (k : String) (v : JVal),
    fs.keys.Nodup → fs.lookup k = some v →
    ∃ ps₁ ps₂, fs.pairs = ps₁ ++ (k, v) :: ps₂ ∧
      (∀ p ∈ ps₁, p.1 ≠ k) ∧ (∀ p ∈ ps₂, p.1 ≠ k)
  | .nil, k, v, _, hl => by cases hl
  | .cons k0 v0 rest, k, v, hnd, hl => by
    have hkeys : (JObj.cons k0 v0 rest).keys = k0 :: rest.keys := rfl
    rw [hkeys, List.nodup_cons] at hnd
    by_cases h : k0 = k
    · subst h
      rw [JObj.lookup, if_pos rfl] at hl
      cases hl
      refine ⟨[], rest.pairs, by simp [JObj.pairs], by simp, ?_⟩
      intro p hp heq
      apply hnd.1
      rw [← heq]
      exact List.mem_map_of_mem Prod.fst hp
    · rw [JObj.lookup, if_neg h] at hl
      obtain ⟨ps₁, ps₂, hsplit, h₁, h₂⟩ := pairs_split_of_lookup rest k v hnd.2 hl
      refine ⟨(k0, v0) :: ps₁, ps₂, ?_, ?_, h₂⟩
      · simp [JObj.pairs, hsplit]
      · intro p hp
        rcases List.mem_cons.mp hp with rfl | hin
        · exact h
        · exact h₁ p hin

/-- `base64Step` leaves alone any key other than `base64` and the
appended underscore-prefixed flag. -/
theorem lookup_base64Step_ne (fs fs' : JObj) (k : String)
    (hb : base64Step fs = some fs')
    (hk : k.data.head? ≠ some '_') (hne : k ≠ "base64") :
    fs'.lookup k = fs.lookup k := by
  unfold base64Step at hb
  cases hfind : fs.lookup "base64" with
  | none =>
    rw [hfind] at hb
    dsimp only at hb
    cases hb
    rfl
  | some v =>
    rw [hfind] at hb
    dsimp only at hb
    cases hlen : v.pyLen with
    | none => rw [hlen] at hb; cases hb
    | some n =>
      rw [hlen] at hb
      dsimp only at hb
      cases hb
      have h1 : ("_base64_stripped" : String) ≠ k := by
        intro h
        apply hk
        rw [← h]
        rfl
      rw [JObj.lookup_set_ne _ _ _ _ h1, JObj.lookup_set_ne _ _ _ _ (Ne.symm hne)]

/-- `base64Step` preserves key distinctness. -/
theorem keysNodup_base64Step (fs fs' : JObj) (hb : base64Step fs = some fs')
    (hnd : fs.keys.Nodup) : fs'.keys.Nodup := by
  unfold base64Step at hb
  cases hfind : fs.lookup "base64" with
  | none => rw [hfind] at hb; dsimp only at hb; cases hb; exact hnd
  | some v =>
    rw [hfind] at hb
    dsimp only at hb
    cases hlen : v.pyLen with
    | none => rw [hlen] at hb; cases hb
    | some n =>
      rw [hlen] at hb
      dsimp only at hb
      cases hb
      exact JObj.keysNodup_set _ _ _ (JObj.keysNodup_set _ _ _ hnd)

/-- `urlOne` at a different key preserves lookups. -/
theorem lookup_urlOne_ne (fs : JObj) (k0 k : String) (h : k0 ≠ k) :
    (urlOne fs k0).lookup k = fs.lookup k := by
  unfold urlOne
  cases hv : fs.lookup k0 with
  | none => rfl
  | some v =>
    cases v with
    | str s =>
      dsimp only
      split
      · exact JObj.lookup_set_ne _ _ _ _ h
      · rfl
    | int n => rfl
    | bool b => rfl
    | null => rfl
    | arr xs => rfl
    | obj o => rfl

/-- `urlOne` preserves key distinctness. -/
theorem keysNodup_urlOne (fs : JObj) (k0 : String) (hnd : fs.keys.Nodup) :
    (urlOne fs k0).keys.Nodup := by
  unfold urlOne
  cases hv : fs.lookup k0 with
  | none => exact hnd
  | some v =>
    cases v with
    | str s =>
      dsimp only
      split
      · exact JObj.keysNodup_set _ _ _ hnd
      · exact hnd
    | int n => exact hnd
    | bool b => exact hnd
    | null => exact hnd
    | arr xs => exact hnd
    | obj o => exact hnd

/-- `urlStep` leaves alone keys other than the three url keys. -/
theorem lookup_urlStep_ne (fs : JObj) (k : String)
    (h1 : k ≠ "url") (h2 : k ≠ "image_url") (h3 : k ≠ "video_url") :
    (urlStep fs).lookup k = fs.lookup k := by
  unfold urlStep
  rw [lookup_urlOne_ne _ _ _ (Ne.symm h3), lookup_urlOne_ne _ _ _ (Ne.symm h2),
    lookup_urlOne_ne _ _ _ (Ne.symm h1)]

/-- `urlOne` leaves alone keys holding non-string values. -/
theorem lookup_urlOne_not_str (fs : JObj) (k0 k : String) (v : JVal)
    (hv : fs.lookup k = some v) (hstr : ∀ s, v ≠ .str s) :
    (urlOne fs k0).lookup k = some v := by
  by_cases h : k0 = k
  · subst h
    unfold urlOne
    rw [hv]
    cases v with
    | str s => exact absurd rfl (hstr s)
    | int n => exact hv
    | bool b => exact hv
    | null => exact hv
    | arr xs => exact hv
    | obj o => exact hv
  · rw [lookup_urlOne_ne _ _ _ h]
    exact hv

/-- `urlStep` leaves alone keys holding non-string values. -/
theorem lookup_urlStep_not_str (fs : JObj) (k : String) (v : JVal)
    (hv : fs.lookup k = some v) (hstr : ∀ s, v ≠ .str s) :
    (urlStep fs).lookup k = some v := by
  unfold urlStep
  exact lookup_urlOne_not_str _ _ _ _
    (lookup_urlOne_not_str _ _ _ _ (lookup_urlOne_not_str _ _ _ _ hv hstr) hstr) hstr

/-- `urlStep` preserves key distinctness. -/
theorem keysNodup_urlStep (fs : JObj) (hnd : fs.keys.Nodup) : (urlStep fs).keys.Nodup :=
  keysNodup_urlOne _ _ (keysNodup_urlOne _ _ (keysNodup_urlOne _ _ hnd))

/-- Unpack a successful run of the sanitizer on a dict. -/
theorem sanitize_obj_eq (fs out : JObj)
    (h : sanitize_tool_result_for_context (.obj fs) = some (.obj out)) :
    ∃ fs₁, base64Step fs = some fs₁ ∧ out = truncStep (urlStep fs₁) := by
  unfold sanitize_tool_result_for_context at h
  dsimp only at h
  cases hb : base64Step fs with
  | none => rw [hb] at h; cases h
  | some fs₁ =>
    rw [hb] at h
    dsimp only at h
    refine ⟨fs₁, rfl, ?_⟩
    injection h with h1
    injection h1 with h2
    exact h2.symm

/-- The truncation loop's effect at an underscore-free key reduces to
the effect of its own snapshot pair, processed against some object in
which the key still holds its pre-loop value. -/
theorem lookup_truncStep_cases (fs : JObj) (k : String) (v : JVal)
    (hk : k.data.head? ≠ some '_') (hnd : fs.keys.Nodup) (hl : fs.lookup k = some v) :
    ∃ g : JObj, g.lookup k = some v ∧
      (truncStep fs).lookup k = (truncOne g (k, v)).lookup k := by
  obtain ⟨ps₁, ps₂, hsplit, h₁, h₂⟩ := pairs_split_of_lookup fs k v hnd hl
  refine ⟨ps₁.foldl truncOne fs, ?_, ?_⟩
  · rw [lookup_foldl_truncOne_ne ps₁ fs k hk h₁]
    exact hl
  · unfold truncStep
    rw [hsplit, List.foldl_append, List.foldl_cons]
    exact lookup_foldl_truncOne_ne ps₂ _ k hk h₂

/-- Claim C7, counterexample: `sanitize_tool_result_for_context` does
NOT cap every list field at 20 elements — a 30-element list whose JSON
serialization is under 10000 characters is returned unchanged (the cap
applies only to lists whose serialization exceeds 10000 characters). -/
theorem sanitize_list_cap_counterexample :
    sanitize_tool_result_for_context
        (.obj (.cons "success" (.bool true)
          (.cons "xs" (.arr (JArr.replicate 30 (.str "a"))) .nil))) =
      some (.obj (.cons "success" (.bool true)
        (.cons "xs" (.arr (JArr.replicate 30 (.str "a"))) .nil))) ∧
    JArr.length (JArr.replicate 30 (.str "a")) = 30 :=
  ⟨rfl, rfl⟩

/-- Claim C7, amended: for dict results with distinct keys,
`sanitize_tool_result_for_context` (i) replaces a string-valued
top-level `base64` field with a size-only placeholder, (ii) truncates
every other ordinary top-level string field longer than 10000
characters to its first 10000 characters plus a size-noting suffix,
(iii) caps at 20 elements those top-level list fields whose JSON
serialization exceeds 10000 characters, (iv) passes boolean fields
(such as `success`) through unchanged, and (v) reduces a result holding
a 2MB base64 payload alongside a `success` flag to under 1KB with the
flag preserved. -/
theorem sanitize_tool_result_amended :
    (∀ (fs out : JObj) (s : String), fs.keys.Nodup →
      sanitize_tool_result_for_context (.obj fs) = some (.obj out) →
      fs.lookup "base64" = some (.str s) →
      (b64Placeholder s.length).length ≤ 10000 →
      out.lookup "base64" = some (.str (b64Placeholder s.length))) ∧
    (∀ (fs out : JObj) (k s : String), fs.keys.Nodup →
      sanitize_tool_result_for_context (.obj fs) = some (.obj out) →
      k.data.head? ≠ some '_' → k ≠ "base64" → k ≠ "url" → k ≠ "image_url" →
      k ≠ "video_url" →
      fs.lookup k = some (.str s) → 10000 < s.length →
      out.lookup k = some (.str (s.take 10000 ++ truncSuffix s.length))) ∧
    (∀ (fs out : JObj) (k : String) (xs : JArr), fs.keys.Nodup →
      sanitize_tool_result_for_context (.obj fs) = some (.obj out) →
      k.data.head? ≠ some '_' → k ≠ "base64" →
      fs.lookup k = some (.arr xs) → 10000 < dumpsLen (.arr xs) → 20 < xs.length →
      out.lookup k = some (.arr (JArr.take 20 xs))) ∧
    (∀ (fs out : JObj) (k : String) (b : Bool), fs.keys.Nodup →
      sanitize_tool_result_for_context (.obj fs) = some (.obj out) →
      k.data.head? ≠ some '_' → k ≠ "base64" →
      fs.lookup k = some (.bool b) →
      out.lookup k = some (.bool b)) ∧
    (∀ s : String, s.length = 2000000 →
      ∃ out : JObj,
        sanitize_tool_result_for_context
            (.obj (.cons "success" (.bool true) (.cons "base64" (.str s) .nil))) =
          some (.obj out) ∧
        dumpsLen (.obj out) < 1024 ∧
        out.lookup "success" = some (.bool true)) := by
  refine ⟨?_, ?_, ?_, ?_, ?_⟩
  · -- (i) base64 replacement
    intro fs out s hnd hsan hbase hsmall
    obtain ⟨fs₁, hb, hout⟩ := sanitize_obj_eq fs out hsan
    subst hout
    have hb64 : fs₁.lookup "base64" = some (.str (b64Placeholder s.length)) := by
      unfold base64Step at hb
      rw [hbase] at hb
      dsimp only [JVal.pyLen] at hb
      cases hb
      rw [JObj.lookup_set_ne _ _ _ _ (by decide), JObj.lookup_set_self]
    have hnd₂ : (urlStep fs₁).keys.Nodup :=
      keysNodup_urlStep _ (keysNodup_base64Step fs fs₁ hb hnd)
    have hl₂ : (urlStep fs₁).lookup "base64" = some (.str (b64Placeholder s.length)) := by
      rw [lookup_urlStep_ne _ _ (by decide) (by decide) (by decide)]
      exact hb64
    obtain ⟨g, hg, heq⟩ := lookup_truncStep_cases (urlStep fs₁) "base64" _ (by decide) hnd₂ hl₂
    rw [heq]
    simp only [truncOne]
    rw [if_neg (by omega)]
    exact hg
  · -- (ii) long string truncation
    intro fs out k s hnd hsan hk hkb hku hki hkv hl hlen
    obtain ⟨fs₁, hb, hout⟩ := sanitize_obj_eq fs out hsan
    subst hout
    have hl₁ : fs₁.lookup k = some (.str s) := by
      rw [lookup_base64Step_ne fs fs₁ k hb hk hkb]
      exact hl
    have hl₂ : (urlStep fs₁).lookup k = some (.str s) := by
      rw [lookup_urlStep_ne _ _ hku hki hkv]
      exact hl₁
    have hnd₂ : (urlStep fs₁).keys.Nodup :=
      keysNodup_urlStep _ (keysNodup_base64Step fs fs₁ hb hnd)
    obtain ⟨g, hg, heq⟩ := lookup_truncStep_cases (urlStep fs₁) k _ hk hnd₂ hl₂
    rw [heq]
    simp only [truncOne]
    rw [if_pos hlen]
    exact JObj.lookup_set_self _ _ _
  · -- (iii) amended list cap
    intro fs out k xs hnd hsan hk hkb hl hdump hcount
    obtain ⟨fs₁, hb, hout⟩ := sanitize_obj_eq fs out hsan
    subst hout
    have hl₁ : fs₁.lookup k = some (.arr xs) := by
      rw [lookup_base64Step_ne fs fs₁ k hb hk hkb]
      exact hl
    have hl₂ : (urlStep fs₁).lookup k = some (.arr xs) :=
      lookup_urlStep_not_str _ _ _ hl₁ (fun s h => by cases h)
    have hnd₂ : (urlStep fs₁).keys.Nodup :=
      keysNodup_urlStep _ (keysNodup_base64Step fs fs₁ hb hnd)
    obtain ⟨g, hg, heq⟩ := lookup_truncStep_cases (urlStep fs₁) k _ hk hnd₂ hl₂
    rw [heq]
    simp only [truncOne]
    rw [if_pos hdump, if_pos hcount]
    rw [JObj.lookup_set_ne _ _ _ _ (underscore_key_ne k "_total_count" k hk),
      JObj.lookup_set_ne _ _ _ _ (underscore_key_ne k "_truncated" k hk),
      JObj.lookup_set_self]
  · -- (iv) boolean fields pass through
    intro fs out k b hnd hsan hk hkb hl
    obtain ⟨fs₁, hb, hout⟩ := sanitize_obj_eq fs out hsan
    subst hout
    have hl₁ : fs₁.lookup k = some (.bool b) := by
      rw [lookup_base64Step_ne fs fs₁ k hb hk hkb]
      exact hl
    have hl₂ : (urlStep fs₁).lookup k = some (.bool b) :=
      lookup_urlStep_not_str _ _ _ hl₁ (fun s h => by cases h)
    have hnd₂ : (urlStep fs₁).keys.Nodup :=
      keysNodup_urlStep _ (keysNodup_base64Step fs fs₁ hb hnd)
    obtain ⟨g, hg, heq⟩ := lookup_truncStep_cases (urlStep fs₁) k _ hk hnd₂ hl₂
    rw [heq]
    exact hg
  · -- (v) the 2MB scenario
    intro s hs
    refine ⟨.cons "success" (.bool true)
      (.cons "base64" (.str (b64Placeholder 2000000))
        (.cons "_base64_stripped" (.bool true) .nil)), ?_, ?_, ?_⟩
    · have hb : base64Step (.cons "success" (.bool true) (.cons "base64" (.str s) .nil)) =
          some (.cons "success" (.bool true)
            (.cons "base64" (.str (b64Placeholder s.length))
              (.cons "_base64_stripped" (.bool true) .nil))) := by
        unfold base64Step
        rw [show JObj.lookup
            (.cons "success" (.bool true) (.cons "base64" (.str s) .nil)) "base64" =
            some (.str s) by simp [JObj.lookup]]
        rfl
      unfold sanitize_tool_result_for_context
      dsimp only
      rw [hb]
      dsimp only
      rw [hs]
      rfl
    · decide
    · rfl

set_option maxRecDepth 4000 in
/-- Witness for C7's amended theorem: each conjunct applied at a
concrete dict. -/
theorem sanitize_tool_result_amended_witness :
    (JObj.cons "base64" (.str (b64Placeholder ("QUJE" : String).length))
        (.cons "_base64_stripped" (.bool true) .nil)).lookup "base64" =
      some (.str (b64Placeholder ("QUJE" : String).length)) ∧
    (JObj.cons "note"
        (.str ((String.mk (List.replicate 10001 'a')).take 10000 ++
          truncSuffix (String.mk (List.replicate 10001 'a')).length)) .nil).lookup "note" =
      some (.str ((String.mk (List.replicate 10001 'a')).take 10000 ++
        truncSuffix (String.mk (List.replicate 10001 'a')).length)) ∧
    (JObj.cons "items" (.arr (JArr.take 20 (JArr.replicate 21 (.str (String.mk (List.replicate 500 'b'))))))
        (.cons "_items_truncated" (.bool true)
          (.cons "_items_total_count" (.int 21) .nil))).lookup "items" =
      some (.arr (JArr.take 20 (JArr.replicate 21 (.str (String.mk (List.replicate 500 'b')))))) ∧
    (JObj.cons "success" (.bool true) .nil).lookup "success" = some (.bool true) ∧
    (∃ out : JObj,
      sanitize_tool_result_for_context
          (.obj (.cons "success" (.bool true)
            (.cons "base64" (.str (String.mk (List.replicate 2000000 'A'))) .nil))) =
        some (.obj out) ∧
      dumpsLen (.obj out) < 1024 ∧
      out.lookup "success" = some (.bool true)) := by
  obtain ⟨ha, hb, hc, hd, he⟩ := sanitize_tool_result_amended
  refine ⟨?_, ?_, ?_, ?_, ?_⟩
  · exact ha (.cons "base64" (.str "QUJE") .nil)
      (.cons "base64" (.str (b64Placeholder ("QUJE" : String).length))
        (.cons "_base64_stripped" (.bool true) .nil))
      "QUJE" (by decide) rfl rfl (by decide)
  · have hlen : 10000 < (String.mk (List.replicate 10001 'a')).length := by
      show 10000 < (List.replicate 10001 'a').length
      rw [List.length_replicate]
      decide
    have hsan : sanitize_tool_result_for_context
        (.obj (.cons "note" (.str (String.mk (List.replicate 10001 'a'))) .nil)) =
        some (.obj (.cons "note"
          (.str ((String.mk (List.replicate 10001 'a')).take 10000 ++
            truncSuffix (String.mk (List.replicate 10001 'a')).length)) .nil)) := by
      unfold sanitize_tool_result_for_context
      dsimp only
      rw [show base64Step (.cons "note" (.str (String.mk (List.replicate 10001 'a'))) .nil) =
        some (.cons "note" (.str (String.mk (List.replicate 10001 'a'))) .nil) from rfl]
      dsimp only
      rw [show urlStep (.cons "note" (.str (String.mk (List.replicate 10001 'a'))) .nil) =
        .cons "note" (.str (String.mk (List.replicate 10001 'a'))) .nil from rfl]
      unfold truncStep
      rw [show JObj.pairs (.cons "note" (.str (String.mk (List.replicate 10001 'a'))) .nil) =
        [("note", JVal.str (String.mk (List.replicate 10001 'a')))] from rfl]
      rw [List.foldl_cons, List.foldl_nil]
      unfold truncOne
      dsimp only
      rw [if_pos hlen]
      rfl
    exact hb (.cons "note" (.str (String.mk (List.replicate 10001 'a'))) .nil)
      (.cons "note"
        (.str ((String.mk (List.replicate 10001 'a')).take 10000 ++
          truncSuffix (String.mk (List.replicate 10001 'a')).length)) .nil)
      "note" (String.mk (List.replicate 10001 'a'))
      (by decide) hsan (by decide) (by decide) (by decide) (by decide) (by decide) rfl hlen
  · exact hc (.cons "items" (.arr (JArr.replicate 21 (.str (String.mk (List.replicate 500 'b'))))) .nil)
      (.cons "items" (.arr (JArr.take 20 (JArr.replicate 21 (.str (String.mk (List.replicate 500 'b'))))))
        (.cons "_items_truncated" (.bool true)
          (.cons "_items_total_count" (.int 21) .nil)))
      "items" (JArr.replicate 21 (.str (String.mk (List.replicate 500 'b'))))
      (by decide) rfl (by decide) (by decide) rfl (by decide) (by decide)
  · exact hd (.cons "success" (.bool true) .nil) (.cons "success" (.bool true) .nil)
      "success" true (by decide) rfl (by decide) (by decide) rfl
  · exact he (String.mk (List.replicate 2000000 'A'))
      (by show (List.replicate 2000000 'A').length = 2000000; rw [List.length_replicate])

/-- Claim C8: when compaction is enabled and triggered but the
compaction call produces no record, `build_context_with_compaction`
does not fail the turn — it returns the simple truncation of the
original message list. -/
theorem build_context_fail_open (env : CompactionEnv) (messages : List Msg)
    (hen : env.compaction_enabled = true)
    (hsh : env.should_compact = true)
    (hfail : env.compact_result = none) :
    build_context_with_compaction env messages =
      truncate_messages_for_context messages env.num_ctx 1000 := by
  unfold build_context_with_compaction
  rw [hen, hsh, hfail]
  rfl

/-- Witness for C8 at a concrete environment and message list. -/
theorem build_context_fail_open_witness :
    build_context_with_compaction c8WitnessEnv [Msg.mk "user" "hello"] =
      truncate_messages_for_context [Msg.mk "user" "hello"] 4096 1000 :=
  build_context_fail_open c8WitnessEnv [Msg.mk "user" "hello"] rfl rfl rfl

/-! ### Lemmas about the cancel endpoint -/

/-- A list never starts with itself falsely. -/
theorem listStartsWith_refl : ∀ l : List Char, listStartsWith l l = true
  | [] => rfl
  | c :: cs => by simp [listStartsWith, listStartsWith_refl cs]

/-- A string contains itself. -/
theorem hasSub_self : ∀ p : List Char, hasSub p p = true
  | [] => rfl
  | c :: t => by simp [hasSub, listStartsWith_refl]

/-- A string contains its own suffix occurrence. -/
theorem hasSub_append_self : ∀ (x p : List Char), hasSub (x ++ p) p = true
  | [], p => by simpa using hasSub_self p
  | c :: x, p => by simp [hasSub, hasSub_append_self x p]

/-- `rstrip` is the identity on text ending in the stop note (which
ends in a non-whitespace character). -/
theorem pyStripRight_append_stopNote (x : List Char) :
    pyStripRight (x ++ stopNote) = x ++ stopNote := by
  unfold pyStripRight
  rw [List.reverse_append]
  rw [show stopNote.reverse = '*' :: stopNote.reverse.tail from rfl]
  rw [List.cons_append, List.dropWhile_cons]
  rw [if_neg (by decide)]
  rw [← List.cons_append, ← (show stopNote.reverse = '*' :: stopNote.reverse.tail from rfl)]
  rw [← List.reverse_append, List.reverse_reverse]

/-- Appending an assistant message puts the last-assistant index at the
end. -/
theorem lastAssistantIdx_append_assistant : ∀ (msgs : List StoredMsg) (c : List Char),
    lastAssistantIdx (msgs ++ [⟨"assistant", c⟩]) = some msgs.length
  | [], c => rfl
  | m :: rest, c => by
    simp [lastAssistantIdx, lastAssistantIdx_append_assistant rest c]

/-- Updating a message's content does not move the last-assistant
index. -/
theorem lastAssistantIdx_setContent : ∀ (msgs : List StoredMsg) (i : Nat) (c : List Char),
    lastAssistantIdx (setContent msgs i c) = lastAssistantIdx msgs
  | [], _, _ => rfl
  | _ :: _, 0, c => by simp [setContent, lastAssistantIdx]
  | m :: rest, i + 1, c => by
    simp [setContent, lastAssistantIdx, lastAssistantIdx_setContent rest i c]

/-- The last-assistant index is in range. -/
theorem lastAssistantIdx_lt : ∀ (msgs : List StoredMsg) (i : Nat),
    lastAssistantIdx msgs = some i → i < msgs.length
  | [], i, h => by cases h
  | m :: rest, i, h => by
    unfold lastAssistantIdx at h
    cases hr : lastAssistantIdx rest with
    | some j =>
      rw [hr] at h
      cases h
      exact Nat.succ_lt_succ (lastAssistantIdx_lt rest j hr)
    | none =>
      rw [hr] at h
      dsimp only at h
      split at h
      · cases h
        exact Nat.succ_pos _
      · cases h

/-- Reading back an updated message keeps the role and has the new
content. -/
theorem getMsg_setContent : ∀ (msgs : List StoredMsg) (i : Nat) (c : List Char),
    i < msgs.length → getMsg (setContent msgs i c) i = ⟨(getMsg msgs i).role, c⟩
  | [], i, c, h => absurd h (Nat.not_lt_zero i)
  | m :: rest, 0, c, _ => rfl
  | m :: rest, i + 1, c, h => getMsg_setContent rest i c (Nat.lt_of_succ_lt_succ h)

/-- Reading the appended last message. -/
theorem getMsg_append_last : ∀ (msgs : List StoredMsg) (m : StoredMsg),
    getMsg (msgs ++ [m]) msgs.length = m
  | [], m => rfl
  | x :: rest, m => getMsg_append_last rest m

/-- Once the last assistant message ends in the stop note,
`cancelPersist` is the identity. -/
theorem cancelPersist_fixed (msgs : List StoredMsg) (i : Nat) (x : List Char)
    (h : lastAssistantIdx msgs = some i)
    (hc : (getMsg msgs i).content = x ++ stopNote) :
    cancelPersist msgs = msgs := by
  unfold cancelPersist
  rw [h]
  dsimp only
  rw [hc, pyStripRight_append_stopNote]
  rw [if_neg (by
    intro hnil
    have : stopNote = [] := (List.append_eq_nil.mp hnil).2
    exact absurd this (by decide))]
  rw [hasSub_append_self x stopNote]
  rfl

/-- `cancelPersist` is idempotent: the stop note is never appended a
second time. -/
theorem cancelPersist_idem (msgs : List StoredMsg) :
    cancelPersist (cancelPersist msgs) = cancelPersist msgs := by
  cases h : lastAssistantIdx msgs with
  | none =>
    have hres : cancelPersist msgs = msgs ++ [⟨"assistant", stopNote⟩] := by
      unfold cancelPersist
      rw [h]
    rw [hres]
    exact cancelPersist_fixed _ msgs.length []
      (lastAssistantIdx_append_assistant msgs stopNote)
      (by rw [getMsg_append_last msgs ⟨"assistant", stopNote⟩]; simp)
  | some i =>
    have hlt : i < msgs.length := lastAssistantIdx_lt msgs i h
    by_cases hempty : pyStripRight (getMsg msgs i).content = []
    · have hres : cancelPersist msgs = setContent msgs i stopNote := by
        unfold cancelPersist
        rw [h]
        dsimp only
        rw [if_pos hempty]
      rw [hres]
      refine cancelPersist_fixed _ i [] ?_ ?_
      · rw [lastAssistantIdx_setContent, h]
      · rw [getMsg_setContent msgs i stopNote hlt]
        simp
    · by_cases hsub : hasSub (pyStripRight (getMsg msgs i).content) stopNote = false
      · have hres : cancelPersist msgs = setContent msgs i
            (pyStripRight (getMsg msgs i).content ++ "\n\n".data ++ stopNote) := by
          unfold cancelPersist
          rw [h]
          dsimp only
          rw [if_neg hempty, if_pos hsub]
        rw [hres]
        refine cancelPersist_fixed _ i (pyStripRight (getMsg msgs i).content ++ "\n\n".data) ?_ ?_
        · rw [lastAssistantIdx_setContent, h]
        · rw [getMsg_setContent msgs i _ hlt]
      · have hres : cancelPersist msgs = msgs := by
          unfold cancelPersist
          rw [h]
          dsimp only
          rw [if_neg hempty, if_neg hsub]
        rw [hres, hres]

/-- Claim C9: calling the cancel endpoint twice on the same conversation
has the same observable effect as calling it once — the state
transformer is idempotent, and with a generation in flight the
cancellation flag ends up set. -/
theorem cancel_generation_idempotent (s : CancelState) :
    cancel_generation (cancel_generation s) = cancel_generation s ∧
    (s.flagExists = true → (cancel_generation s).flagSet = true) := by
  obtain ⟨e, fl, conv⟩ := s
  constructor
  · cases conv with
    | none => simp [cancel_generation, Bool.or_assoc]
    | some msgs => simp [cancel_generation, Bool.or_assoc, cancelPersist_idem]
  · intro h
    simp only [cancel_generation]
    simp at h
    simp [h]

/-- Witness for C9 at a concrete in-flight state. -/
theorem cancel_generation_idempotent_witness :
    cancel_generation (cancel_generation ⟨true, false, some [⟨"user", "hi".data⟩]⟩) =
      cancel_generation ⟨true, false, some [⟨"user", "hi".data⟩]⟩ ∧
    (cancel_generation ⟨true, false, some [⟨"user", "hi".data⟩]⟩).flagSet = true :=
  ⟨(cancel_generation_idempotent _).1, (cancel_generation_idempotent _).2 rfl⟩

/-! ### Lemmas about the streaming loop -/

/-- Appending a non-empty string on the right is non-empty. -/
theorem string_append_ne_right (a b : String) (hb : b ≠ "") : a ++ b ≠ "" := by
  intro h
  apply hb
  have hd : (a ++ b).data = [] := by rw [h]
  rw [String.data_append] at hd
  have hbd : b.data = [] := (List.append_eq_nil.mp hd).2
  cases b with
  | mk l =>
    cases hbd
    rfl

/-- `allContentTok` distributes over append. -/
theorem allContentTok_append (l₁ l₂ : List TokEv) :
    allContentTok (l₁ ++ l₂) = (allContentTok l₁ && allContentTok l₂) := by
  induction l₁ with
  | nil => simp [allContentTok]
  | cons e rest ih => simp [allContentTok, ih, Bool.and_assoc]

/-- The ordering pattern absorbs a trailing content token. -/
theorem orderingOK_append_content (l : List TokEv) (s : String) (h : orderingOK l = true) :
    orderingOK (l ++ [TokEv.contentTok s]) = true := by
  induction l with
  | nil => simp [orderingOK] at h
  | cons e rest ih =>
    cases e with
    | thinkingTok t =>
      rw [List.cons_append]
      exact ih h
    | thinkingDone =>
      rw [List.cons_append]
      show allContentTok (rest ++ [TokEv.contentTok s]) = true
      rw [allContentTok_append]
      simpa [allContentTok, isContentTok] using h
    | contentTok t => simp [orderingOK] at h
    | cancelledTok => simp [orderingOK] at h

set_option maxHeartbeats 3200000 in
/-- Processing a chunk in the thinking phase, ending the loop on its
`done` flag, yields events matching the ordering pattern. -/
theorem processChunk_phaseA_done (st : LoopState) (c : Chunk) (hA : st.is_thinking = true)
    (hout : (processChunk st c).2.2 = some Outcome.doneBreak) :
    orderingOK (processChunk st c).2.1 = true := by
  revert hout
  unfold processChunk processChunkRest contentStep markerStep toolStep doneStep
  split_ifs <;> intro hout <;>
    by_cases hlim : THINKING_HARD_LIMIT_INITIAL < st.thinking_token_count + 1 <;>
    (first
      | rw [if_pos hlim] at hout ⊢
      | rw [if_neg hlim] at hout ⊢
      | skip) <;>
    simp_all [orderingOK, allContentTok, isContentTok]

set_option maxHeartbeats 3200000 in
/-- Processing a content-free chunk in the thinking phase without
ending the loop keeps the phase and emits only thinking tokens. -/
theorem processChunk_phaseA_nocontent (st : LoopState) (c : Chunk)
    (hA : st.is_thinking = true) (hc : c.content = "")
    (hout : (processChunk st c).2.2 = none) :
    (processChunk st c).1.is_thinking = true ∧
    ∀ tail, orderingOK ((processChunk st c).2.1 ++ tail) = orderingOK tail := by
  revert hout
  unfold processChunk processChunkRest contentStep markerStep toolStep doneStep
  split_ifs <;> intro hout <;>
    by_cases hlim : THINKING_HARD_LIMIT_INITIAL < st.thinking_token_count + 1 <;>
    (first
      | rw [if_pos hlim] at hout ⊢
      | rw [if_neg hlim] at hout ⊢
      | skip) <;>
    simp_all [orderingOK]

set_option maxHeartbeats 3200000 in
/-- Processing a content-carrying chunk in the thinking phase without
ending the loop emits the single boundary marker followed by the
content token, and moves to the content phase. -/
theorem processChunk_phaseA_content (st : LoopState) (c : Chunk)
    (hA : st.is_thinking = true) (hc : c.content ≠ "")
    (hout : (processChunk st c).2.2 = none) :
    phaseB (processChunk st c).1 ∧
    ∀ tail, allContentTok tail = true →
      orderingOK ((processChunk st c).2.1 ++ tail) = true := by
  revert hout
  unfold processChunk processChunkRest contentStep markerStep toolStep doneStep
  split_ifs <;> intro hout <;>
    by_cases hlim : THINKING_HARD_LIMIT_INITIAL < st.thinking_token_count + 1 <;>
    (first
      | rw [if_pos hlim] at hout ⊢
      | rw [if_neg hlim] at hout ⊢
      | skip) <;>
    simp_all [phaseB, orderingOK, allContentTok, isContentTok] <;>
    exact string_append_ne_right _ _ hc

set_option maxHeartbeats 3200000 in
/-- Processing a thinking-free chunk in the content phase emits only
content tokens and stays in the content phase. -/
theorem processChunk_phaseB (st : LoopState) (c : Chunk)
    (hB : phaseB st) (ht : c.thinking = "") :
    allContentTok (processChunk st c).2.1 = true ∧ phaseB (processChunk st c).1 := by
  obtain ⟨h1, h2, h3, h4⟩ := hB
  unfold processChunk processChunkRest contentStep markerStep toolStep doneStep
  split_ifs <;>
    simp_all [phaseB, allContentTok, isContentTok] <;>
    exact string_append_ne_right _ _ (by assumption)

/-- Main loop invariant: starting in the thinking phase on a
well-ordered schedule that ends with a `done` chunk, the emitted token
events match the thinking-marker-content pattern; starting in the
content phase on a thinking-free schedule, only content tokens are
emitted. -/
theorem runLoop_ordering : ∀ (input : List Iter) (st : LoopState),
    (st.is_thinking = true → wellOrdered input = true →
      (runLoop st input).2.2 = Outcome.doneBreak →
      orderingOK (runLoop st input).2.1 = true) ∧
    (phaseB st → noThinkingChunks input = true →
      (runLoop st input).2.2 = Outcome.doneBreak →
      allContentTok (runLoop st input).2.1 = true)
  | [], st => by
    constructor <;> intro _ _ hout <;> simp [runLoop] at hout
  | it :: rest, st => by
    obtain ⟨cflag, ev⟩ := it
    by_cases hcf : cflag = true
    · subst hcf
      constructor <;> intro _ _ hout <;> simp [runLoop] at hout
    · have hcf' : cflag = false := by simpa using hcf
      subst hcf'
      cases ev with
      | streamEnd =>
        constructor <;> intro _ _ hout <;> simp [runLoop] at hout
      | timeout =>
        constructor
        · intro hA hw hout
          have hwrest : wellOrdered rest = true := by
            simp only [wellOrdered, Bool.and_eq_true] at hw
            exact hw.2
          by_cases hart : st.artificial_thinking_active = true
          · have hred : runLoop st (⟨false, UpEvent.timeout⟩ :: rest) =
                ((runLoop { st with is_thinking := true } rest).1,
                 TokEv.thinkingTok keepaliveTok ::
                   (runLoop { st with is_thinking := true } rest).2.1,
                 (runLoop { st with is_thinking := true } rest).2.2) := by
              simp [runLoop, hart]
            rw [hred] at hout ⊢
            exact (runLoop_ordering rest { st with is_thinking := true }).1 rfl hwrest hout
          · have hred : runLoop st (⟨false, UpEvent.timeout⟩ :: rest) = runLoop st rest := by
              simp [runLoop, hart]
            rw [hred] at hout ⊢
            exact (runLoop_ordering rest st).1 hA hwrest hout
        · intro hB hnt hout
          have hntrest : noThinkingChunks rest = true := by
            simp only [noThinkingChunks, List.all_cons, Bool.and_eq_true] at hnt ⊢
            exact hnt.2
          have hart : ¬st.artificial_thinking_active = true := by
            rw [hB.2.2.1]
            simp
          have hred : runLoop st (⟨false, UpEvent.timeout⟩ :: rest) = runLoop st rest := by
            simp [runLoop, hart]
          rw [hred] at hout ⊢
          exact (runLoop_ordering rest st).2 hB hntrest hout
      | chunk c =>
        rcases hpc : processChunk st c with ⟨st', evs, oout⟩
        cases oout with
        | some out =>
          have hred : runLoop st (⟨false, UpEvent.chunk c⟩ :: rest) = (st', evs, out) := by
            simp [runLoop, hpc]
          constructor
          · intro hA hw hout
            rw [hred] at hout ⊢
            dsimp only at hout ⊢
            subst hout
            have h := processChunk_phaseA_done st c hA (by rw [hpc])
            rw [hpc] at h
            exact h
          · intro hB hnt hout
            rw [hred] at hout ⊢
            have hth : c.thinking = "" := by
              simp only [noThinkingChunks, List.all_cons, Bool.and_eq_true] at hnt
              have := hnt.1
              simpa [chunkHasThinking] using this
            obtain ⟨hac, _⟩ := processChunk_phaseB st c hB hth
            rw [hpc] at hac
            exact hac
        | none =>
          have hred : runLoop st (⟨false, UpEvent.chunk c⟩ :: rest) =
              ((runLoop st' rest).1, evs ++ (runLoop st' rest).2.1,
               (runLoop st' rest).2.2) := by
            simp [runLoop, hpc]
          constructor
          · intro hA hw hout
            rw [hred] at hout ⊢
            dsimp only at hout ⊢
            by_cases hcon : c.content = ""
            · obtain ⟨hA', hsh⟩ := processChunk_phaseA_nocontent st c hA hcon (by rw [hpc])
              rw [hpc] at hA'
              have hwrest : wellOrdered rest = true := by
                simp only [wellOrdered, Bool.and_eq_true] at hw
                exact hw.2
              have hrest := (runLoop_ordering rest st').1 hA' hwrest hout
              have hsh' := hsh (runLoop st' rest).2.1
              rw [hpc] at hsh'
              dsimp only at hsh'
              rw [hsh']
              exact hrest
            · obtain ⟨hB', hsh⟩ := processChunk_phaseA_content st c hA hcon (by rw [hpc])
              rw [hpc] at hB'
              have hnt : noThinkingChunks rest = true := by
                simp only [wellOrdered, Bool.and_eq_true, Bool.or_eq_true] at hw
                rcases hw.1 with h | h
                · exact absurd h (by simp [chunkHasContent, hcon])
                · exact h
              have hrest := (runLoop_ordering rest st').2 hB' hnt hout
              have := hsh (runLoop st' rest).2.1 hrest
              rw [hpc] at this
              dsimp only at this
              exact this
          · intro hB hnt hout
            rw [hred] at hout ⊢
            dsimp only at hout ⊢
            have hth : c.thinking = "" := by
              simp only [noThinkingChunks, List.all_cons, Bool.and_eq_true] at hnt
              have := hnt.1
              simpa [chunkHasThinking] using this
            obtain ⟨hac, hB'⟩ := processChunk_phaseB st c hB hth
            rw [hpc] at hac hB'
            have hntrest : noThinkingChunks rest = true := by
              simp only [noThinkingChunks, List.all_cons, Bool.and_eq_true] at hnt
              exact hnt.2
            have hrest := (runLoop_ordering rest st').2 hB' hntrest hout
            rw [allContentTok_append]
            simp [hac, hrest]

/-- Prepending to a list with a known last element. -/
theorem getLast?_cons_of_getLast? {α : Type} (a x : α) (l : List α)
    (h : l.getLast? = some x) : (a :: l).getLast? = some x := by
  cases l with
  | nil => cases h
  | cons b t => rw [List.getLast?_cons_cons]; exact h

/-- Mapping the `token` wrapper preserves the last element. -/
theorem getLast?_map_tok : ∀ (l : List TokEv) (x : TokEv),
    l.getLast? = some x → (l.map SSEEv.tok).getLast? = some (SSEEv.tok x)
  | [], x, h => by cases h
  | [a], x, h => by
    simp only [List.getLast?_singleton] at h
    cases h
    rfl
  | a :: b :: t, x, h => by
    rw [List.getLast?_cons_cons] at h
    simp only [List.map_cons]
    rw [List.getLast?_cons_cons]
    have := getLast?_map_tok (b :: t) x h
    simpa using this

/-- The done branch never reports the cancellation outcome. -/
theorem doneStep_not_cancelled (st : LoopState) (evs : List TokEv) (c : Chunk) :
    (doneStep st evs c).2.2 ≠ some Outcome.cancelled := by
  unfold doneStep
  split_ifs <;> simp

/-- Neither does the rest of the chunk handling. -/
theorem processChunkRest_not_cancelled (st : LoopState) (evs : List TokEv) (c : Chunk) :
    (processChunkRest st evs c).2.2 ≠ some Outcome.cancelled := by
  unfold processChunkRest
  exact doneStep_not_cancelled _ _ _

/-- Chunk processing never reports the cancellation outcome (that
outcome only arises from the flag check at the top of the loop). -/
theorem processChunk_not_cancelled (st : LoopState) (c : Chunk) :
    (processChunk st c).2.2 ≠ some Outcome.cancelled := by
  unfold processChunk
  dsimp only
  split_ifs <;>
    first
      | exact processChunkRest_not_cancelled _ _ _
      | simp

/-- When the loop ends by cancellation, the last emitted token event is
the cancellation token. -/
theorem runLoop_cancelled_last : ∀ (input : List Iter) (st : LoopState),
    (runLoop st input).2.2 = Outcome.cancelled →
    (runLoop st input).2.1.getLast? = some TokEv.cancelledTok
  | [], st => by intro h; simp [runLoop] at h
  | it :: rest, st => by
    intro h
    obtain ⟨cflag, ev⟩ := it
    by_cases hcf : cflag = true
    · subst hcf
      simp [runLoop]
    · have hcf' : cflag = false := by simpa using hcf
      subst hcf'
      cases ev with
      | streamEnd => simp [runLoop] at h
      | timeout =>
        by_cases hart : st.artificial_thinking_active = true
        · have hred : runLoop st (⟨false, UpEvent.timeout⟩ :: rest) =
              ((runLoop { st with is_thinking := true } rest).1,
               TokEv.thinkingTok keepaliveTok ::
                 (runLoop { st with is_thinking := true } rest).2.1,
               (runLoop { st with is_thinking := true } rest).2.2) := by
            simp [runLoop, hart]
          rw [hred] at h ⊢
          exact getLast?_cons_of_getLast? _ _ _
            (runLoop_cancelled_last rest { st with is_thinking := true } h)
        · have hred : runLoop st (⟨false, UpEvent.timeout⟩ :: rest) = runLoop st rest := by
            simp [runLoop, hart]
          rw [hred] at h ⊢
          exact runLoop_cancelled_last rest st h
      | chunk c =>
        rcases hpc : processChunk st c with ⟨st', evs, oout⟩
        cases oout with
        | some out =>
          have hred : runLoop st (⟨false, UpEvent.chunk c⟩ :: rest) = (st', evs, out) := by
            simp [runLoop, hpc]
          rw [hred] at h
          dsimp only at h
          subst h
          have hnc := processChunk_not_cancelled st c
          rw [hpc] at hnc
          exact absurd rfl hnc
        | none =>
          have hred : runLoop st (⟨false, UpEvent.chunk c⟩ :: rest) =
              ((runLoop st' rest).1, evs ++ (runLoop st' rest).2.1,
               (runLoop st' rest).2.2) := by
            simp [runLoop, hpc]
          rw [hred] at h ⊢
          dsimp only at h ⊢
          have hIH := runLoop_cancelled_last rest st' h
          have hne : (runLoop st' rest).2.1 ≠ [] := by
            intro hnil
            rw [hnil] at hIH
            cases hIH
          rw [List.getLast?_append_of_ne_nil _ hne]
          exact hIH

/-- A cancelled stream phase comes from a cancelled loop. -/
theorem streamPhase_cancelled (p : Option String) (input : List Iter)
    (h : (streamPhase p input).2.2 = Outcome.cancelled) :
    (runLoop (initialLoopState p) input).2.2 = Outcome.cancelled := by
  unfold streamPhase at h
  dsimp only at h
  cases hro : (runLoop (initialLoopState p) input).2.2 with
  | cancelled => rfl
  | doneBreak => rw [hro] at h; dsimp only at h; split at h <;> cases h
  | hardLimitBreak => rw [hro] at h; dsimp only at h; split at h <;> cases h
  | streamEnd => rw [hro] at h; dsimp only at h; split at h <;> cases h

/-- On cancellation the stream-phase events are the two keepalives plus
the loop's events. -/
theorem streamPhase_cancelled_events (p : Option String) (input : List Iter)
    (h : (runLoop (initialLoopState p) input).2.2 = Outcome.cancelled) :
    (streamPhase p input).2.1 =
      TokEv.thinkingTok keepaliveTok :: TokEv.thinkingTok keepaliveTok ::
        (runLoop (initialLoopState p) input).2.1 ∧
    (streamPhase p input).2.2 = Outcome.cancelled := by
  unfold streamPhase
  dsimp only
  rw [h]
  exact ⟨rfl, rfl⟩

/-- Claim C2: a set cancellation flag is detected at the top of the next
loop iteration — the loop persists the collected content with the
cancellation marker appended (when a placeholder record exists), emits
the single token event carrying `cancelled: true`, and ends the turn
with no `done` event and the cancellation token last.  The marker is
exactly `"*[Generation cancelled by user]*"` on a blank line.  (The
persistence call is wrapped in `try/except` in the source; the path
raises nothing.) -/
theorem cancellation_path :
    (∀ (st : LoopState) (it : Iter) (rest : List Iter), it.cancelled = true →
      runLoop st (it :: rest) =
        ({ st with
            persisted := st.persisted.map (fun _ => st.collected_content ++ cancelNote) },
         [TokEv.cancelledTok], Outcome.cancelled)) ∧
    cancelNote = "\n\n" ++ "*[Generation cancelled by user]*" ∧
    (∀ (p : Option String) (input : List Iter),
      (streamPhase p input).2.2 = Outcome.cancelled →
      SSEEv.doneEv ∉ turnEventsNoTool p input ∧
      (turnEventsNoTool p input).getLast? = some (SSEEv.tok TokEv.cancelledTok)) := by
  refine ⟨?_, rfl, ?_⟩
  · intro st it rest hc
    obtain ⟨cflag, ev⟩ := it
    simp only at hc
    subst hc
    simp [runLoop]
  · intro p input h
    have hloop := streamPhase_cancelled p input h
    obtain ⟨hevs, hout⟩ := streamPhase_cancelled_events p input hloop
    have hlast := runLoop_cancelled_last input (initialLoopState p) hloop
    have hturn : turnEventsNoTool p input = (streamPhase p input).2.1.map SSEEv.tok := by
      unfold turnEventsNoTool
      dsimp only
      rw [hout]
    constructor
    · rw [hturn]
      simp
    · rw [hturn, hevs]
      simp only [List.map_cons]
      exact getLast?_cons_of_getLast? _ _ _
        (getLast?_cons_of_getLast? _ _ _ (getLast?_map_tok _ _ hlast))

/-- Claim C1, counterexample: on a provider schedule that interleaves
thinking after content (thinking, content, thinking, content, done),
the turn's token events contain TWO `{thinking_done}` markers with a
`{thinking}` event after the first — the claimed
thinking*/marker/content* ordering fails. -/
theorem event_ordering_counterexample :
    (streamPhase none c1CexInput).2.1 =
      [TokEv.thinkingTok keepaliveTok, TokEv.thinkingTok keepaliveTok, TokEv.thinkingTok "T",
       TokEv.thinkingDone, TokEv.contentTok "c", TokEv.thinkingTok "U", TokEv.thinkingDone,
       TokEv.contentTok "d"] ∧
    orderingOK (streamPhase none c1CexInput).2.1 = false := by
  decide

/-- Claim C1, amended: when the provider emits no thinking chunk after a
content chunk and the loop terminates via a `done` chunk (no
cancellation, no hard-limit break, no bare stream end), the turn's
token events satisfy the ordering invariant: all `{thinking}` events
precede a single `{thinking_done}` marker, which precedes all
`{content}` events. -/
theorem stream_loop_ordering (p : Option String) (input : List Iter)
    (hw : wellOrdered input = true)
    (hout : (streamPhase p input).2.2 = Outcome.doneBreak) :
    orderingOK (streamPhase p input).2.1 = true := by
  have hmain := (runLoop_ordering input (initialLoopState p)).1 rfl hw
  unfold streamPhase at hout ⊢
  dsimp only at hout ⊢
  cases hro : (runLoop (initialLoopState p) input).2.2 with
  | cancelled => rw [hro] at hout; cases hout
  | streamEnd =>
    rw [hro] at hout
    dsimp only at hout
    split at hout <;> cases hout
  | hardLimitBreak =>
    rw [hro] at hout
    dsimp only at hout
    split at hout <;> cases hout
  | doneBreak =>
    dsimp only
    have hOK := hmain hro
    split
    · show orderingOK ((TokEv.thinkingTok keepaliveTok :: TokEv.thinkingTok keepaliveTok ::
        (runLoop (initialLoopState p) input).2.1) ++ [TokEv.contentTok fallbackMsg]) = true
      rw [List.cons_append, List.cons_append]
      show orderingOK
        ((runLoop (initialLoopState p) input).2.1 ++ [TokEv.contentTok fallbackMsg]) = true
      exact orderingOK_append_content _ _ hOK
    · show orderingOK ((runLoop (initialLoopState p) input).2.1) = true
      exact hOK

/-- Witness for C1's amended theorem on a concrete well-ordered
schedule (keepalive timeout, thinking, content, done). -/
theorem stream_loop_ordering_witness :
    orderingOK (streamPhase none c1WitnessInput).2.1 = true :=
  stream_loop_ordering none c1WitnessInput (by decide) (by decide)

/-- Witness for C2 at a concrete state: cancellation flagged at the
first iteration of a turn with an empty placeholder. -/
theorem cancellation_path_witness :
    runLoop (initialLoopState (some "")) [⟨true, UpEvent.timeout⟩] =
      ({ initialLoopState (some "") with
          persisted := (initialLoopState (some "")).persisted.map
            (fun _ => (initialLoopState (some "")).collected_content ++ cancelNote) },
       [TokEv.cancelledTok], Outcome.cancelled) ∧
    SSEEv.doneEv ∉ turnEventsNoTool (some "") [⟨true, UpEvent.timeout⟩] ∧
    (turnEventsNoTool (some "") [⟨true, UpEvent.timeout⟩]).getLast? =
      some (SSEEv.tok TokEv.cancelledTok) := by
  obtain ⟨h1, _, h3⟩ := cancellation_path
  have h := h3 (some "") [⟨true, UpEvent.timeout⟩] (by decide)
  exact ⟨h1 _ _ _ rfl, h.1, h.2⟩

end BrinChat
